import Mathlib

/-!
Verification development for the PolyClipper plane-clipping kernel
(polyclipper.hh): half-plane / half-space clipping of polygons and
polyhedra, together with moments, degenerate collapse and face
extraction.

The repository ships only the header polyclipper.hh: the inline
vector/plane equality operators are embedded directly from that source,
while the algorithm bodies (clipPolygon, clipPolyhedron, moments,
collapseDegenerates, extractFaces) are declared there but their
implementations are not part of the sources, so they are modelled from
the specification.  Geometric quantities use exact rationals in place of
IEEE-754 doubles; the equality operators, whose behaviour hinges on
IEEE semantics, use a dedicated discrete model of doubles.
-/

/-- Discrete model of an IEEE-754 double, sufficient to express the
equality semantics used by polyclipper.hh: a finite numeric value
(with num 0 standing for +0.0), the distinct bit pattern -0.0, or a NaN
with a payload distinguishing bit patterns. -/
inductive Dbl where
  | num (q : ℚ)
  | negZero
  | nan (payload : ℕ)
deriving DecidableEq

/-- IEEE-754 equality on doubles: NaN compares unequal to everything
(itself included), and +0.0 equals -0.0.  This is the semantics of the
C++ operator== on double used in polyclipper.hh. -/
def dblEq : Dbl → Dbl → Bool
  | Dbl.num a, Dbl.num b => a == b
  | Dbl.num a, Dbl.negZero => a == 0
  | Dbl.negZero, Dbl.num b => b == 0
  | Dbl.negZero, Dbl.negZero => true
  | _, _ => false

/-- The numeric value of a double, none for NaN; -0.0 has value 0. -/
def Dbl.val : Dbl → Option ℚ
  | Dbl.num q => some q
  | Dbl.negZero => some 0
  | Dbl.nan _ => none

/-- Whether a double is a NaN bit pattern. -/
def Dbl.isNaN : Dbl → Bool
  | Dbl.nan _ => true
  | _ => false

/-- Vector2d of polyclipper.hh, restricted to the fields relevant for
its equality operator. -/
structure Vector2d where
  x : Dbl
  y : Dbl
deriving DecidableEq

/-- Vector2d::operator== (polyclipper.hh line 34):
x == rhs.x and y == rhs.y, with == the IEEE double comparison. -/
def Vector2d.eq (a b : Vector2d) : Bool :=
  dblEq a.x b.x && dblEq a.y b.y

/-- Vector3d of polyclipper.hh. -/
structure Vector3d where
  x : Dbl
  y : Dbl
  z : Dbl
deriving DecidableEq

/-- Vector3d::operator== (polyclipper.hh line 63). -/
def Vector3d.eq (a b : Vector3d) : Bool :=
  dblEq a.x b.x && dblEq a.y b.y && dblEq a.z b.z

/-- Plane2d of polyclipper.hh: signed distance, unit normal, integer ID
(defaulting to the minimum int, not modelled since no claim uses it). -/
structure Plane2d where
  dist : Dbl
  normal : Vector2d
  ID : ℤ
deriving DecidableEq

/-- Plane2d::operator== (polyclipper.hh line 101):
dist == rhs.dist and normal == rhs.normal; the ID is not read. -/
def Plane2d.eq (p q : Plane2d) : Bool :=
  dblEq p.dist q.dist && Vector2d.eq p.normal q.normal

/-- Plane2d::operator!= (polyclipper.hh line 102): not (*this == rhs). -/
def Plane2d.neq (p q : Plane2d) : Bool :=
  !(Plane2d.eq p q)

/-- Plane3d of polyclipper.hh. -/
structure Plane3d where
  dist : Dbl
  normal : Vector3d
  ID : ℤ
deriving DecidableEq

/-- Plane3d::operator== (polyclipper.hh line 121). -/
def Plane3d.eq (p q : Plane3d) : Bool :=
  dblEq p.dist q.dist && Vector3d.eq p.normal q.normal

/-- Plane3d::operator!= (polyclipper.hh line 122). -/
def Plane3d.neq (p q : Plane3d) : Bool :=
  !(Plane3d.eq p q)

/-! ## Exact geometric model (2D)

Positions and plane offsets are exact rationals standing in for the
doubles of the implementation. -/

/-- 2D vector over the rationals. -/
structure Vec2 where
  x : ℚ
  y : ℚ
deriving DecidableEq

/-- Dot product, as in Vector2d::dot. -/
def Vec2.dot (a b : Vec2) : ℚ := a.x * b.x + a.y * b.y

/-- 2D cross product (z component), as in Vector2d::cross. -/
def Vec2.cross (a b : Vec2) : ℚ := a.x * b.y - a.y * b.x

/-- Componentwise sum. -/
def Vec2.add (a b : Vec2) : Vec2 := ⟨a.x + b.x, a.y + b.y⟩

/-- Componentwise difference. -/
def Vec2.sub (a b : Vec2) : Vec2 := ⟨a.x - b.x, a.y - b.y⟩

/-- Scalar multiple. -/
def Vec2.smul (t : ℚ) (a : Vec2) : Vec2 := ⟨t * a.x, t * a.y⟩

/-- Zero vector. -/
def Vec2.zero : Vec2 := ⟨0, 0⟩

/-- Squared Euclidean distance between two points. -/
def Vec2.dist2 (a b : Vec2) : ℚ := (a.x - b.x) ^ 2 + (a.y - b.y) ^ 2

/-- 2D oriented plane (half-plane boundary): unit normal, signed
distance to the origin and integer ID, as Plane2d in polyclipper.hh. -/
structure Plane2 where
  dist : ℚ
  normal : Vec2
  ID : ℤ
deriving DecidableEq

/-- Signed distance of a point to the plane: normal . p + dist.  A point
is above the plane iff this is nonnegative. -/
def Plane2.compare (P : Plane2) (p : Vec2) : ℚ := P.normal.dot p + P.dist

/-- Vertex2d of polyclipper.hh: position, (prev, next) neighbor indices,
component tag comp (1 kept, 0 on plane, -1 removed tombstone), scratch
ID, and the set of plane IDs whose cuts created the vertex. -/
structure Vertex2 where
  position : Vec2
  prev : ℕ
  next : ℕ
  comp : ℤ
  ID : ℤ
  clips : Finset ℤ
deriving DecidableEq

instance : Inhabited Vertex2 := ⟨⟨Vec2.zero, 0, 0, 1, -1, ∅⟩⟩

/-- A polygon is a dense sequence of vertices whose neighbor fields
index into the same sequence. -/
abbrev Polygon := List Vertex2

/-- Vertex at index i (default vertex out of range). -/
def vAt (poly : Polygon) (i : ℕ) : Vertex2 := poly.getD i default

/-- Next-neighbor index of vertex i. -/
def nxt (poly : Polygon) (i : ℕ) : ℕ := (vAt poly i).next

/-- Prev-neighbor index of vertex i. -/
def prv (poly : Polygon) (i : ℕ) : ℕ := (vAt poly i).prev

/-- A vertex is live iff it exists and its comp is nonnegative. -/
def liveV (poly : Polygon) (i : ℕ) : Bool :=
  decide (i < poly.length) && decide (0 ≤ (vAt poly i).comp)

/-- Sign of a rational as the small integer used for comp tags. -/
def sgnQ (q : ℚ) : ℤ := if 0 < q then 1 else if q < 0 then -1 else 0

/-- Signed distance of vertex i to the clip plane. -/
def dOf (poly : Polygon) (P : Plane2) (i : ℕ) : ℚ :=
  P.compare (vAt poly i).position

/-- Classification of vertex i against the plane (spec 4.2 step 1):
live vertices get the sign of their distance, dead vertices stay -1. -/
def vcomp2 (poly : Polygon) (P : Plane2) (i : ℕ) : ℤ :=
  if liveV poly i then sgnQ (dOf poly P i) else -1

/-- Sources of descending cut edges: live vertices a strictly above the
plane whose next neighbor is live and strictly below (spec 4.2 step 3). -/
def descList2 (poly : Polygon) (P : Plane2) : List ℕ :=
  (List.range poly.length).filter (fun a =>
    liveV poly a && liveV poly (nxt poly a) &&
    decide (0 < dOf poly P a) && decide (dOf poly P (nxt poly a) < 0))

/-- Targets of ascending cut edges: live vertices c strictly above the
plane whose prev neighbor is live and strictly below. -/
def ascList2 (poly : Polygon) (P : Plane2) : List ℕ :=
  (List.range poly.length).filter (fun c =>
    liveV poly c && liveV poly (prv poly c) &&
    decide (0 < dOf poly P c) && decide (dOf poly P (prv poly c) < 0))

/-- Generating keys of the new on-plane vertices: one per descending
directed edge (a, b) with a above and b below.  The flag records whether
the edge follows a next pointer (outgoing cut) or a prev pointer
(incoming cut), which fixes the splice orientation. -/
def newKeys2 (poly : Polygon) (P : Plane2) : List (ℕ × ℕ × Bool) :=
  (descList2 poly P).map (fun a => (a, nxt poly a, true)) ++
    (ascList2 poly P).map (fun c => (c, prv poly c, false))

/-- Walk a step function from i while the classification is -1, bounded
by fuel. -/
def walkGen (step : ℕ → ℕ) (vc : ℕ → ℤ) : ℕ → ℕ → ℕ
  | 0, i => i
  | fuel + 1, i => if vc i = -1 then walkGen step vc fuel (step i) else i

/-- Walk next pointers from i while the classification is -1 (the dead
chain of spec 4.2 step 4a), bounded by fuel. -/
def walkNext2 (poly : Polygon) (vc : ℕ → ℤ) : ℕ → ℕ → ℕ :=
  walkGen (nxt poly) vc

/-- Walk prev pointers from i while the classification is -1. -/
def walkPrev2 (poly : Polygon) (vc : ℕ → ℤ) : ℕ → ℕ → ℕ :=
  walkGen (prv poly) vc

/-- Index of the new vertex spawned on the descending next-edge out of a. -/
def outIdx2 (poly : Polygon) (P : Plane2) (a : ℕ) : ℕ :=
  poly.length + (descList2 poly P).indexOf a

/-- Index of the new vertex spawned on the ascending prev-edge into c. -/
def inIdx2 (poly : Polygon) (P : Plane2) (c : ℕ) : ℕ :=
  poly.length + (descList2 poly P).length + (ascList2 poly P).indexOf c

/-- Node that follows a dead chain entered at b: the first live vertex v
reached by next pointers, or the new vertex spawned on its ascending
edge when v is strictly above the plane. -/
def exitNode2 (poly : Polygon) (P : Plane2) (b : ℕ) : ℕ :=
  let v := walkNext2 poly (vcomp2 poly P) poly.length b
  if vcomp2 poly P v = 1 then inIdx2 poly P v else v

/-- Node that precedes a dead chain left at b: the first live vertex u
reached by prev pointers, or the new vertex spawned on its descending
edge when u is strictly above the plane. -/
def entryNode2 (poly : Polygon) (P : Plane2) (b : ℕ) : ℕ :=
  let u := walkPrev2 poly (vcomp2 poly P) poly.length b
  if vcomp2 poly P u = 1 then outIdx2 poly P u else u

/-- Linear interpolation of the cut point on the edge from a (above) to
b (below): a.pos + t (b.pos - a.pos) with t = d_a / (d_a - d_b)
(spec 4.2 step 3). -/
def interp2 (poly : Polygon) (P : Plane2) (a b : ℕ) : Vec2 :=
  let da := dOf poly P a
  let db := dOf poly P b
  Vec2.add (vAt poly a).position
    (Vec2.smul (da / (da - db)) (Vec2.sub (vAt poly b).position (vAt poly a).position))

/-- Modelled from the spec: construction of one new on-plane vertex of
clipPolygon (whose implementation is absent from the sources; only its
declaration appears in polyclipper.hh).  Per spec 4.2 steps 3-4a the
vertex sits at the interpolated cut point, has comp 1, scratch ID -1 and
clips the union of the endpoint clip sets plus the plane ID; an outgoing
cut vertex is spliced between the surviving vertex a and the exit of the
dead chain, an incoming cut vertex symmetrically. -/
def mkNew2 (poly : Polygon) (P : Plane2) (k : ℕ × ℕ × Bool) : Vertex2 :=
  { position := interp2 poly P k.1 k.2.1
    prev := if k.2.2 then k.1 else entryNode2 poly P k.2.1
    next := if k.2.2 then exitNode2 poly P k.2.1 else k.1
    comp := 1
    ID := -1
    clips := (vAt poly k.1).clips ∪ (vAt poly k.2.1).clips ∪ {P.ID} }

/-- Modelled from the spec: the per-vertex update of clipPolygon on the
original vertices (implementation absent from the sources).  Vertices
classified below become tombstones (spec 4.2 step 5); kept vertices take
their classification as comp and have a neighbor pointing into the
removed region redirected to the new vertex on their own cut edge, or to
the far end of the dead chain when they lie exactly on the plane
(spec 4.2 step 4a). -/
def oldT2 (poly : Polygon) (P : Plane2) (i : ℕ) : Vertex2 :=
  let v := vAt poly i
  if vcomp2 poly P i = -1 then { v with comp := -1 }
  else
    { v with
      comp := vcomp2 poly P i
      next :=
        if vcomp2 poly P (nxt poly i) ≠ -1 then v.next
        else if vcomp2 poly P i = 1 then outIdx2 poly P i
        else exitNode2 poly P (nxt poly i)
      prev :=
        if vcomp2 poly P (prv poly i) ≠ -1 then v.prev
        else if vcomp2 poly P i = 1 then inIdx2 poly P i
        else entryNode2 poly P (prv poly i) }

/-- Modelled from the spec: one plane pass of clipPolygon, whose
implementation is absent from the sources (only the declaration is in
polyclipper.hh).  Per spec 4.2: classify every live vertex by the sign
of its distance; if no live vertex is strictly below, the polygon is
unchanged; if no live vertex is strictly above, every live vertex is
removed; otherwise below vertices become tombstones, one new on-plane
vertex is created per descending directed edge, and the boundary is
respliced along the cut. -/
def clipPlane2 (poly : Polygon) (P : Plane2) : Polygon :=
  let n := poly.length
  let hasBelow := (List.range n).any (fun i => liveV poly i && decide (dOf poly P i < 0))
  let hasAbove := (List.range n).any (fun i => liveV poly i && decide (0 < dOf poly P i))
  if !hasBelow then poly
  else if !hasAbove then
    poly.map (fun v => if 0 ≤ v.comp then { v with comp := -1 } else v)
  else
    ((List.range n).map (oldT2 poly P)) ++ (newKeys2 poly P).map (mkNew2 poly P)

/-- Modelled from the spec: clipPolygon (declared in polyclipper.hh,
implementation absent from the sources) applies the planes in the order
given, one in-place pass per plane (spec 4.2). -/
def clipPolygon (poly : Polygon) (planes : List Plane2) : Polygon :=
  planes.foldl clipPlane2 poly

/-- Modelled from the spec: moments of a polygon (declared in
polyclipper.hh, implementation absent from the sources).  Per spec 4.3,
with p0 the first live vertex's position, each boundary edge (p_i, p_j)
taken along next pointers contributes 0.5 cross(p_i - p0, p_j - p0) to
the zeroth moment (shoelace) and (1/3)(p_i + p_j + p0) times that
contribution to the first moment; an empty polygon yields zero. -/
def moments2 (poly : Polygon) : ℚ × Vec2 :=
  match (List.range poly.length).find? (fun i => liveV poly i) with
  | none => (0, Vec2.zero)
  | some i0 =>
    let p0 := (vAt poly i0).position
    (List.range poly.length).foldl
      (fun acc i =>
        if liveV poly i then
          let pi := (vAt poly i).position
          let pj := (vAt poly (nxt poly i)).position
          let c := (1 / 2 : ℚ) * Vec2.cross (Vec2.sub pi p0) (Vec2.sub pj p0)
          (acc.1 + c, Vec2.add acc.2 (Vec2.smul (c / 3) (Vec2.add (Vec2.add pi pj) p0)))
        else acc)
      (0, Vec2.zero)

/-- Walk next pointers from i collecting the boundary loop back to
start, bounded by fuel. -/
def faceWalk2 (poly : Polygon) : ℕ → ℕ → ℕ → List ℕ
  | 0, _, _ => []
  | fuel + 1, start, i =>
    i :: (if nxt poly i = start then [] else faceWalk2 poly fuel start (nxt poly i))

/-- Modelled from the spec: extractFaces of a polygon (declared in
polyclipper.hh, implementation absent from the sources).  Per spec 4.5,
walk next from each not-yet-visited live vertex until it returns; each
walk is one closed boundary loop. -/
def extractFaces2 (poly : Polygon) : List (List ℕ) :=
  ((List.range poly.length).foldl
    (fun (acc : List (List ℕ) × List ℕ) i =>
      if liveV poly i && !(acc.2.contains i) then
        let loop := faceWalk2 poly poly.length i i
        (acc.1 ++ [loop], acc.2 ++ loop)
      else acc)
    ([], [])).1

/-- One attempted merge of collapseDegenerates: if vertex i and its next
neighbor j are both live, distinct and closer than tol, vertex j is
removed, its clips are folded into i, and the boundary is respliced
around it (spec 4.4). -/
def mergeStep2 (tol : ℚ) (poly : Polygon) (i : ℕ) : Polygon :=
  if liveV poly i then
    let j := nxt poly i
    if liveV poly j && decide (j ≠ i) &&
        decide (Vec2.dist2 (vAt poly i).position (vAt poly j).position < tol ^ 2) then
      let k := nxt poly j
      (List.range poly.length).map (fun m =>
        let v := vAt poly m
        if m = j then { v with comp := -1 }
        else if m = i then
          { v with next := k, clips := v.clips ∪ (vAt poly j).clips }
        else if m = k then { v with prev := i }
        else v)
    else poly
  else poly

/-- One full merge pass over all vertex indices. -/
def collapsePass2 (tol : ℚ) (poly : Polygon) : Polygon :=
  (List.range poly.length).foldl (mergeStep2 tol) poly

/-- Merge passes iterated to a fixed point, bounded by fuel. -/
def collapseIter2 : ℕ → ℚ → Polygon → Polygon
  | 0, _, poly => poly
  | fuel + 1, tol, poly =>
    let q := collapsePass2 tol poly
    if q = poly then poly else collapseIter2 fuel tol q

/-- Final compaction of spec 4.4: rebuild the sequence with only live
vertices and renumber the neighbor indices accordingly. -/
def compact2 (poly : Polygon) : Polygon :=
  let m := fun i => ((List.range i).filter (fun j => liveV poly j)).length
  (List.range poly.length).filterMap (fun i =>
    if liveV poly i then
      some { vAt poly i with prev := m (prv poly i), next := m (nxt poly i) }
    else none)

/-- Modelled from the spec: collapseDegenerates on a polygon (declared
in polyclipper.hh, implementation absent from the sources).  Per spec
4.4: merge adjacent live vertices closer than tol, iterate passes to a
fixed point, then compact away the tombstones. -/
def collapseDegenerates2 (poly : Polygon) (tol : ℚ) : Polygon :=
  compact2 (collapseIter2 poly.length tol poly)

/-! ## Exact geometric model (3D) -/

/-- 3D vector over the rationals. -/
structure Vec3 where
  x : ℚ
  y : ℚ
  z : ℚ
deriving DecidableEq

/-- Dot product, as in Vector3d::dot. -/
def Vec3.dot (a b : Vec3) : ℚ := a.x * b.x + a.y * b.y + a.z * b.z

/-- Cross product, as in Vector3d::cross. -/
def Vec3.cross (a b : Vec3) : Vec3 :=
  ⟨a.y * b.z - a.z * b.y, a.z * b.x - a.x * b.z, a.x * b.y - a.y * b.x⟩

/-- Componentwise sum. -/
def Vec3.add (a b : Vec3) : Vec3 := ⟨a.x + b.x, a.y + b.y, a.z + b.z⟩

/-- Componentwise difference. -/
def Vec3.sub (a b : Vec3) : Vec3 := ⟨a.x - b.x, a.y - b.y, a.z - b.z⟩

/-- Scalar multiple. -/
def Vec3.smul (t : ℚ) (a : Vec3) : Vec3 := ⟨t * a.x, t * a.y, t * a.z⟩

/-- Zero vector. -/
def Vec3.zero : Vec3 := ⟨0, 0, 0⟩

/-- Squared Euclidean distance between two points. -/
def Vec3.dist2 (a b : Vec3) : ℚ :=
  (a.x - b.x) ^ 2 + (a.y - b.y) ^ 2 + (a.z - b.z) ^ 2

/-- 3D oriented plane, as Plane3d in polyclipper.hh. -/
structure Plane3 where
  dist : ℚ
  normal : Vec3
  ID : ℤ
deriving DecidableEq

/-- Signed distance of a point to the plane: normal . p + dist. -/
def Plane3.compare (P : Plane3) (p : Vec3) : ℚ := P.normal.dot p + P.dist

/-- Vertex3d of polyclipper.hh: position, cyclic neighbor index list
(ordered by the outward-orientation convention), comp tag, scratch ID
and clip set. -/
structure Vertex3 where
  position : Vec3
  neighbors : List ℕ
  comp : ℤ
  ID : ℤ
  clips : Finset ℤ
deriving DecidableEq

instance : Inhabited Vertex3 := ⟨⟨Vec3.zero, [], 1, -1, ∅⟩⟩

/-- A polyhedron is a dense sequence of vertices whose neighbor lists
index into the same sequence. -/
abbrev Polyhedron := List Vertex3

/-- Vertex at index i (default vertex out of range). -/
def vAt3 (poly : Polyhedron) (i : ℕ) : Vertex3 := poly.getD i default

/-- A vertex is live iff it exists and its comp is nonnegative. -/
def liveV3 (poly : Polyhedron) (i : ℕ) : Bool :=
  decide (i < poly.length) && decide (0 ≤ (vAt3 poly i).comp)

/-- Signed distance of vertex i to the clip plane. -/
def dOf3 (poly : Polyhedron) (P : Plane3) (i : ℕ) : ℚ :=
  P.compare (vAt3 poly i).position

/-- Classification of vertex i against the plane (spec 4.2 step 1). -/
def vcomp3 (poly : Polyhedron) (P : Plane3) (i : ℕ) : ℤ :=
  if liveV3 poly i then sgnQ (dOf3 poly P i) else -1

/-- Descending directed edges (a, b): a live and strictly above, b a
live neighbor of a strictly below (spec 4.2 step 3). -/
def descKeys3 (poly : Polyhedron) (P : Plane3) : List (ℕ × ℕ) :=
  (List.range poly.length).flatMap (fun a =>
    ((vAt3 poly a).neighbors.filter (fun b =>
      liveV3 poly a && decide (0 < dOf3 poly P a) &&
      liveV3 poly b && decide (dOf3 poly P b < 0))).map (fun b => (a, b)))

/-- Index of the new vertex spawned on the descending edge (a, b). -/
def widx3 (poly : Polyhedron) (P : Plane3) (k : ℕ × ℕ) : ℕ :=
  poly.length + (descKeys3 poly P).indexOf k

/-- The element of a cyclic list immediately after u. -/
def nextAfter3 (l : List ℕ) (u : ℕ) : ℕ :=
  l.getD ((l.indexOf u + 1) % l.length) 0

/-- Scan a cyclic list from position k for the first element satisfying
p, bounded by fuel. -/
def scanCyc (l : List ℕ) (p : ℕ → Bool) : ℕ → ℕ → Option ℕ
  | 0, _ => none
  | fuel + 1, k =>
    let v := l.getD (k % l.length) 0
    if p v then some v else scanCyc l p fuel (k + 1)

/-- Modelled from the spec: the cap-ring successor of the new vertex on
descending edge (a, b) (spec 4.2 step 4b item 2: walk around b through
its below-cycle to the next ascending exit).  Scanning b's cyclic
neighbor list after a, the first strictly-above neighbor x marks the
exit edge (x, b), whose new vertex is the successor. -/
def capNext3 (poly : Polyhedron) (P : Plane3) (k : ℕ × ℕ) : ℕ :=
  let lb := (vAt3 poly k.2).neighbors
  match scanCyc lb (fun x => vcomp3 poly P x == 1) lb.length (lb.indexOf k.1 + 1) with
  | some x => widx3 poly P (x, k.2)
  | none => k.1

/-- One step of the oriented face walk of spec 4.5: arriving at v from
u, continue to the neighbor of v immediately after u in v's cycle. -/
def faceStep3 (poly : Polyhedron) (e : ℕ × ℕ) : ℕ × ℕ :=
  (e.2, nextAfter3 (vAt3 poly e.2).neighbors e.1)

/-- Walk the face containing a directed edge until a descending edge
(above to below) is met, bounded by fuel. -/
def faceSearch3 (poly : Polyhedron) (P : Plane3) : ℕ → ℕ × ℕ → Option (ℕ × ℕ)
  | 0, _ => none
  | fuel + 1, e =>
    let e2 := faceStep3 poly e
    if vcomp3 poly P e2.1 == 1 && vcomp3 poly P e2.2 == -1 then some e2
    else faceSearch3 poly P fuel e2

/-- Total count of directed edges, a fuel bound for face walks. -/
def edgeCount3 (poly : Polyhedron) : ℕ :=
  (poly.map (fun v => v.neighbors.length)).sum

/-- Modelled from the spec: the cap-ring predecessor of the new vertex
on descending edge (a, b) (spec 4.2 step 4b item 2: the adjacent new
vertex around the face shared via a), located by walking the oriented
face of the ascending edge (b, a) until its descending cut edge. -/
def capPrev3 (poly : Polyhedron) (P : Plane3) (k : ℕ × ℕ) : ℕ :=
  match faceSearch3 poly P (edgeCount3 poly + 1) (k.2, k.1) with
  | some e => widx3 poly P e
  | none => k.1

/-- Linear interpolation of the cut point on the edge from a (above) to
b (below), as in the 2D case (spec 4.2 step 3). -/
def interp3 (poly : Polyhedron) (P : Plane3) (a b : ℕ) : Vec3 :=
  let da := dOf3 poly P a
  let db := dOf3 poly P b
  Vec3.add (vAt3 poly a).position
    (Vec3.smul (da / (da - db)) (Vec3.sub (vAt3 poly b).position (vAt3 poly a).position))

/-- Modelled from the spec: construction of one new on-plane vertex of
clipPolyhedron (whose implementation is absent from the sources; only
its declaration appears in polyclipper.hh).  Per spec 4.2 steps 3-4b the
vertex sits at the interpolated cut point, has comp 1, scratch ID -1,
clips the union of the endpoint clip sets plus the plane ID, and three
neighbors: the surviving endpoint a and its two cap-ring partners. -/
def mkNew3 (poly : Polyhedron) (P : Plane3) (k : ℕ × ℕ) : Vertex3 :=
  { position := interp3 poly P k.1 k.2
    neighbors := [k.1, capNext3 poly P k, capPrev3 poly P k]
    comp := 1
    ID := -1
    clips := (vAt3 poly k.1).clips ∪ (vAt3 poly k.2).clips ∪ {P.ID} }

/-- Modelled from the spec: the per-vertex update of clipPolyhedron on
the original vertices (implementation absent from the sources).  Below
vertices become tombstones (spec 4.2 step 5); strictly-above vertices
replace each below neighbor b by the new vertex on the edge to b
(spec 4.2 step 4b item 1); on-plane vertices drop their below neighbors
(a case spec 4.2 leaves unspecified). -/
def oldT3 (poly : Polyhedron) (P : Plane3) (i : ℕ) : Vertex3 :=
  let v := vAt3 poly i
  if vcomp3 poly P i = -1 then { v with comp := -1 }
  else if vcomp3 poly P i = 1 then
    { v with
      comp := 1
      neighbors := v.neighbors.map (fun b =>
        if vcomp3 poly P b = -1 then widx3 poly P (i, b) else b) }
  else
    { v with
      comp := 0
      neighbors := v.neighbors.filter (fun b => vcomp3 poly P b ≠ -1) }

/-- Modelled from the spec: one plane pass of clipPolyhedron, whose
implementation is absent from the sources (only the declaration is in
polyclipper.hh).  Same branch structure as the 2D pass (spec 4.2): no
live vertex strictly below leaves the polyhedron unchanged; no live
vertex strictly above removes every live vertex; otherwise below
vertices become tombstones, one new vertex is created per descending
directed edge, and the neighbor cycles are rewired along the cut. -/
def clipPlane3 (poly : Polyhedron) (P : Plane3) : Polyhedron :=
  let n := poly.length
  let hasBelow := (List.range n).any (fun i => liveV3 poly i && decide (dOf3 poly P i < 0))
  let hasAbove := (List.range n).any (fun i => liveV3 poly i && decide (0 < dOf3 poly P i))
  if !hasBelow then poly
  else if !hasAbove then
    poly.map (fun v => if 0 ≤ v.comp then { v with comp := -1 } else v)
  else
    ((List.range n).map (oldT3 poly P)) ++ (descKeys3 poly P).map (mkNew3 poly P)

/-- Modelled from the spec: clipPolyhedron (declared in polyclipper.hh,
implementation absent from the sources) applies the planes in order, one
pass per plane (spec 4.2). -/
def clipPolyhedron (poly : Polyhedron) (planes : List Plane3) : Polyhedron :=
  planes.foldl clipPlane3 poly

/-- All directed edges between live vertices. -/
def allEdges3 (poly : Polyhedron) : List (ℕ × ℕ) :=
  (List.range poly.length).flatMap (fun a =>
    ((vAt3 poly a).neighbors.filter (fun b => liveV3 poly a && liveV3 poly b)).map
      (fun b => (a, b)))

/-- Walk one oriented face loop starting from a directed edge, collecting
the directed edges until the start edge recurs, bounded by fuel. -/
def faceLoop3 (poly : Polyhedron) : ℕ → ℕ × ℕ → ℕ × ℕ → List (ℕ × ℕ)
  | 0, _, _ => []
  | fuel + 1, start, e =>
    e :: (let e2 := faceStep3 poly e
          if e2 = start then [] else faceLoop3 poly fuel start e2)

/-- Modelled from the spec: extractFaces of a polyhedron (declared in
polyclipper.hh, implementation absent from the sources).  Per spec 4.5,
for each unvisited directed edge walk the oriented face loop (at v
coming from u, continue past u in v's cycle) and emit the loop's source
vertices; every edge of the loop is marked visited. -/
def extractFaces3 (poly : Polyhedron) : List (List ℕ) :=
  ((allEdges3 poly).foldl
    (fun (acc : List (List ℕ) × List (ℕ × ℕ)) e =>
      if acc.2.contains e then acc
      else
        let loop := faceLoop3 poly (edgeCount3 poly + 1) e e
        (acc.1 ++ [loop.map (fun d => d.1)], acc.2 ++ loop))
    ([], [])).1

/-- Moment contribution of one face: fan around the face's first vertex;
each triangle contributes v = (1/6) p0 . (p_i x p_j) to the volume and
(v/4)(p0 + p_i + p_j) to the first moment (spec 4.3). -/
def faceMoments3 (poly : Polyhedron) (face : List ℕ) : ℚ × Vec3 :=
  match face.map (fun i => (vAt3 poly i).position) with
  | [] => (0, Vec3.zero)
  | p0 :: rest =>
    (List.zip rest rest.tail).foldl
      (fun acc pr =>
        let v := (1 / 6 : ℚ) * p0.dot (Vec3.cross pr.1 pr.2)
        (acc.1 + v, Vec3.add acc.2 (Vec3.smul (v / 4) (Vec3.add (Vec3.add p0 pr.1) pr.2))))
      (0, Vec3.zero)

/-- Modelled from the spec: moments of a polyhedron (declared in
polyclipper.hh, implementation absent from the sources).  Per spec 4.3,
extract the faces and sum the fan-tetrahedron contributions; an empty
polyhedron yields zero. -/
def moments3 (poly : Polyhedron) : ℚ × Vec3 :=
  (extractFaces3 poly).foldl
    (fun acc face =>
      let fm := faceMoments3 poly face
      (acc.1 + fm.1, Vec3.add acc.2 fm.2))
    (0, Vec3.zero)

/-- One attempted merge of the 3D collapseDegenerates: the first live
neighbor of i closer than tol is removed; its clips fold into the
survivor and every neighbor list is respliced onto the survivor
(spec 4.4). -/
def mergeStep3 (tol : ℚ) (poly : Polyhedron) (i : ℕ) : Polyhedron :=
  if liveV3 poly i then
    match (vAt3 poly i).neighbors.find? (fun j =>
        liveV3 poly j && decide (j ≠ i) &&
        decide (Vec3.dist2 (vAt3 poly i).position (vAt3 poly j).position < tol ^ 2)) with
    | none => poly
    | some j =>
      let s := min i j
      let r := max i j
      (List.range poly.length).map (fun m =>
        let v := vAt3 poly m
        if m = r then { v with comp := -1 }
        else if m = s then
          { v with
            clips := v.clips ∪ (vAt3 poly r).clips
            neighbors := v.neighbors.filter (fun x => x ≠ r) ++
              (vAt3 poly r).neighbors.filter (fun x => x ≠ s) }
        else { v with neighbors := v.neighbors.map (fun x => if x = r then s else x) })
  else poly

/-- One full 3D merge pass over all vertex indices. -/
def collapsePass3 (tol : ℚ) (poly : Polyhedron) : Polyhedron :=
  (List.range poly.length).foldl (mergeStep3 tol) poly

/-- Whether vertex i is a pinched degree-2 vertex: exactly two neighbor
entries naming the same vertex (spec 4.4). -/
def pinched3 (poly : Polyhedron) (i : ℕ) : Bool :=
  liveV3 poly i && decide ((vAt3 poly i).neighbors.length = 2) &&
    decide ((vAt3 poly i).neighbors.getD 0 0 = (vAt3 poly i).neighbors.getD 1 0)

/-- Removal of pinched degree-2 vertices after a pass (spec 4.4): each
becomes a tombstone and disappears from the surviving neighbor lists. -/
def pinch3 (poly : Polyhedron) : Polyhedron :=
  (List.range poly.length).map (fun i =>
    let v := vAt3 poly i
    if pinched3 poly i then { v with comp := -1 }
    else { v with neighbors := v.neighbors.filter (fun x => !pinched3 poly x) })

/-- 3D merge passes with pinch removal, iterated to a fixed point,
bounded by fuel. -/
def collapseIter3 : ℕ → ℚ → Polyhedron → Polyhedron
  | 0, _, poly => poly
  | fuel + 1, tol, poly =>
    let q := pinch3 (collapsePass3 tol poly)
    if q = poly then poly else collapseIter3 fuel tol q

/-- Final 3D compaction of spec 4.4: keep only live vertices and
renumber the neighbor indices. -/
def compact3 (poly : Polyhedron) : Polyhedron :=
  let m := fun i => ((List.range i).filter (fun j => liveV3 poly j)).length
  (List.range poly.length).filterMap (fun i =>
    if liveV3 poly i then
      some { vAt3 poly i with neighbors := (vAt3 poly i).neighbors.map m }
    else none)

/-- Modelled from the spec: collapseDegenerates on a polyhedron
(declared in polyclipper.hh, implementation absent from the sources).
Per spec 4.4: merge adjacent live vertices closer than tol, remove
pinched degree-2 vertices after every pass, iterate to a fixed point,
then compact away the tombstones. -/
def collapseDegenerates3 (poly : Polyhedron) (tol : ℚ) : Polyhedron :=
  compact3 (collapseIter3 poly.length tol poly)

/-! ## Concrete example inputs -/

/-- The unit square 0,0 / 1,0 / 1,1 / 0,1 with counter-clockwise
adjacency (3,1), (0,2), (1,3), (2,0) (spec 8, scenario 1). -/
def unitSquare : Polygon :=
  [ { position := ⟨0, 0⟩, prev := 3, next := 1, comp := 1, ID := -1, clips := ∅ },
    { position := ⟨1, 0⟩, prev := 0, next := 2, comp := 1, ID := -1, clips := ∅ },
    { position := ⟨1, 1⟩, prev := 1, next := 3, comp := 1, ID := -1, clips := ∅ },
    { position := ⟨0, 1⟩, prev := 2, next := 0, comp := 1, ID := -1, clips := ∅ } ]

/-- The half plane x at least 1/2: normal (1,0), dist -1/2 (spec 8,
scenario 2). -/
def planeXhalf : Plane2 := { dist := -1/2, normal := ⟨1, 0⟩, ID := 10 }

/-- The half plane x at least 0: the whole square is above it. -/
def planeXzero : Plane2 := { dist := 0, normal := ⟨1, 0⟩, ID := 7 }

/-- The half plane x at least 2: the whole square is strictly below it
(spec 8, scenario 3). -/
def planeXtwo : Plane2 := { dist := -2, normal := ⟨1, 0⟩, ID := 3 }

/-- A square with its first corner duplicated: vertices 0 and 1 are
adjacent and exactly coincident. -/
def dupSquare : Polygon :=
  [ { position := ⟨0, 0⟩, prev := 4, next := 1, comp := 1, ID := -1, clips := ∅ },
    { position := ⟨0, 0⟩, prev := 0, next := 2, comp := 1, ID := -1, clips := ∅ },
    { position := ⟨1, 0⟩, prev := 1, next := 3, comp := 1, ID := -1, clips := ∅ },
    { position := ⟨1, 1⟩, prev := 2, next := 4, comp := 1, ID := -1, clips := ∅ },
    { position := ⟨0, 1⟩, prev := 3, next := 0, comp := 1, ID := -1, clips := ∅ } ]

/-- The unit tetrahedron 0,0,0 / 1,0,0 / 0,1,0 / 0,0,1 with
outward-oriented neighbor cycles (spec 8, scenario 5). -/
def unitTet : Polyhedron :=
  [ { position := ⟨0, 0, 0⟩, neighbors := [1, 3, 2], comp := 1, ID := -1, clips := ∅ },
    { position := ⟨1, 0, 0⟩, neighbors := [0, 2, 3], comp := 1, ID := -1, clips := ∅ },
    { position := ⟨0, 1, 0⟩, neighbors := [0, 3, 1], comp := 1, ID := -1, clips := ∅ },
    { position := ⟨0, 0, 1⟩, neighbors := [0, 1, 2], comp := 1, ID := -1, clips := ∅ } ]

/-- The half space x at least 0 in 3D: the whole tetrahedron is above. -/
def plane3Xzero : Plane3 := { dist := 0, normal := ⟨1, 0, 0⟩, ID := 7 }

/-- The half space x at least 2 in 3D: the whole tetrahedron is strictly
below. -/
def plane3Xtwo : Plane3 := { dist := -2, normal := ⟨1, 0, 0⟩, ID := 3 }

/-- The half space x at least 1/2 in 3D: it cuts the tetrahedron. -/
def plane3Xhalf : Plane3 := { dist := -1/2, normal := ⟨1, 0, 0⟩, ID := 10 }

/-! ## General lemmas about the clipping passes -/

theorem liveV_eq_true_iff (poly : Polygon) (i : ℕ) :
    liveV poly i = true ↔ i < poly.length ∧ 0 ≤ (vAt poly i).comp := by
  simp [liveV]

theorem liveV_of_ge (poly : Polygon) (i : ℕ) (h : poly.length ≤ i) :
    liveV poly i = false := by
  simp [liveV]
  omega

theorem vAt_eq_getElem (poly : Polygon) (i : ℕ) (h : i < poly.length) :
    vAt poly i = poly[i] := by
  simp [vAt, List.getD_eq_getElem?_getD, List.getElem?_eq_getElem h]

/-- If no live vertex is strictly below the plane, a 2D clip pass leaves
the polygon unchanged (spec 4.2 step 2, first case). -/
theorem clipPlane2_of_not_below (poly : Polygon) (P : Plane2)
    (h : ∀ i, liveV poly i = true → ¬ dOf poly P i < 0) :
    clipPlane2 poly P = poly := by
  have hB : ((List.range poly.length).any
      (fun i => liveV poly i && decide (dOf poly P i < 0))) = false := by
    simp only [List.any_eq_false, Bool.and_eq_true, decide_eq_true_eq, not_and]
    intro x _
    exact h x
  simp only [clipPlane2, hB, Bool.not_false, if_pos]

/-- A polygon with no live vertex is unchanged by a 2D clip pass. -/
theorem clipPlane2_of_no_live (poly : Polygon) (P : Plane2)
    (h : ∀ i, liveV poly i = false) :
    clipPlane2 poly P = poly := by
  refine clipPlane2_of_not_below poly P (fun i hi => ?_)
  rw [h i] at hi
  cases hi

/-- A polygon with no live vertex is unchanged by any plane list. -/
theorem clipPolygon_of_no_live (poly : Polygon) (planes : List Plane2)
    (h : ∀ i, liveV poly i = false) :
    clipPolygon poly planes = poly := by
  induction planes with
  | nil => rfl
  | cons P rest ih =>
    show clipPolygon (clipPlane2 poly P) rest = poly
    rw [clipPlane2_of_no_live poly P h]
    exact ih

/-- If every live vertex is strictly below the plane, one 2D clip pass
leaves no live vertex (spec 4.2 step 2, second case). -/
theorem clipPlane2_of_all_below (poly : Polygon) (P : Plane2)
    (h : ∀ i, liveV poly i = true → dOf poly P i < 0) :
    ∀ j, liveV (clipPlane2 poly P) j = false := by
  by_cases hl : ∀ i, liveV poly i = false
  · intro j
    rw [clipPlane2_of_no_live poly P hl]
    exact hl j
  · push_neg at hl
    obtain ⟨i0, hi0⟩ := hl
    have hi0' : liveV poly i0 = true := by
      cases hh : liveV poly i0
      · exact absurd hh hi0
      · rfl
    have hi0lt : i0 < poly.length := ((liveV_eq_true_iff poly i0).mp hi0').1
    have hB : ((List.range poly.length).any
        (fun i => liveV poly i && decide (dOf poly P i < 0))) = true := by
      simp only [List.any_eq_true, Bool.and_eq_true, decide_eq_true_eq]
      exact ⟨i0, List.mem_range.mpr hi0lt, hi0', h i0 hi0'⟩
    have hA : ((List.range poly.length).any
        (fun i => liveV poly i && decide (0 < dOf poly P i))) = false := by
      simp only [List.any_eq_false, Bool.and_eq_true, decide_eq_true_eq, not_and]
      intro x _ hx
      have := h x hx
      intro h0
      linarith
    intro j
    have hout : clipPlane2 poly P =
        poly.map (fun v => if 0 ≤ v.comp then { v with comp := -1 } else v) := by
      simp only [clipPlane2, hB, hA, Bool.not_true, Bool.not_false, if_neg, if_pos,
        Bool.false_eq_true, not_false_eq_true]
    rw [hout]
    by_cases hj : j < poly.length
    · have hj' : j < (poly.map (fun v => if 0 ≤ v.comp then { v with comp := -1 } else v)).length := by
        simpa using hj
      rw [liveV, vAt_eq_getElem _ j hj', List.getElem_map]
      by_cases hc : 0 ≤ poly[j].comp
      · simp [hc]
      · simp [hc]
    · exact liveV_of_ge _ j (by simpa using Nat.le_of_not_lt hj)

/-- A polygon with no live vertex has zero moments. -/
theorem moments2_of_no_live (poly : Polygon) (h : ∀ i, liveV poly i = false) :
    moments2 poly = (0, Vec2.zero) := by
  have hf : (List.range poly.length).find? (fun i => liveV poly i) = none := by
    simp only [List.find?_eq_none]
    intro x _
    simp [h x]
  simp only [moments2, hf]

/-- A polygon with no live vertex has no faces. -/
theorem extractFaces2_of_no_live (poly : Polygon) (h : ∀ i, liveV poly i = false) :
    extractFaces2 poly = [] := by
  have : ∀ (l : List ℕ) (acc : List (List ℕ) × List ℕ),
      l.foldl (fun acc i =>
        if liveV poly i && !(acc.2.contains i) then
          let loop := faceWalk2 poly poly.length i i
          (acc.1 ++ [loop], acc.2 ++ loop)
        else acc) acc = acc := by
    intro l
    induction l with
    | nil => intro acc; rfl
    | cons x xs ih =>
      intro acc
      simp only [List.foldl_cons, h x, Bool.false_and, if_neg, Bool.false_eq_true,
        not_false_eq_true]
      exact ih acc
  simp only [extractFaces2, this]

theorem liveV3_eq_true_iff (poly : Polyhedron) (i : ℕ) :
    liveV3 poly i = true ↔ i < poly.length ∧ 0 ≤ (vAt3 poly i).comp := by
  simp [liveV3]

theorem liveV3_of_ge (poly : Polyhedron) (i : ℕ) (h : poly.length ≤ i) :
    liveV3 poly i = false := by
  simp [liveV3]
  omega

theorem vAt3_eq_getElem (poly : Polyhedron) (i : ℕ) (h : i < poly.length) :
    vAt3 poly i = poly[i] := by
  simp [vAt3, List.getD_eq_getElem?_getD, List.getElem?_eq_getElem h]

/-- If no live vertex is strictly below the plane, a 3D clip pass leaves
the polyhedron unchanged (spec 4.2 step 2, first case). -/
theorem clipPlane3_of_not_below (poly : Polyhedron) (P : Plane3)
    (h : ∀ i, liveV3 poly i = true → ¬ dOf3 poly P i < 0) :
    clipPlane3 poly P = poly := by
  have hB : ((List.range poly.length).any
      (fun i => liveV3 poly i && decide (dOf3 poly P i < 0))) = false := by
    simp only [List.any_eq_false, Bool.and_eq_true, decide_eq_true_eq, not_and]
    intro x _
    exact h x
  simp only [clipPlane3, hB, Bool.not_false, if_pos]

/-- A polyhedron with no live vertex is unchanged by a 3D clip pass. -/
theorem clipPlane3_of_no_live (poly : Polyhedron) (P : Plane3)
    (h : ∀ i, liveV3 poly i = false) :
    clipPlane3 poly P = poly := by
  refine clipPlane3_of_not_below poly P (fun i hi => ?_)
  rw [h i] at hi
  cases hi

/-- A polyhedron with no live vertex is unchanged by any plane list. -/
theorem clipPolyhedron_of_no_live (poly : Polyhedron) (planes : List Plane3)
    (h : ∀ i, liveV3 poly i = false) :
    clipPolyhedron poly planes = poly := by
  induction planes with
  | nil => rfl
  | cons P rest ih =>
    show clipPolyhedron (clipPlane3 poly P) rest = poly
    rw [clipPlane3_of_no_live poly P h]
    exact ih

/-- If every live vertex is strictly below the plane, one 3D clip pass
leaves no live vertex (spec 4.2 step 2, second case). -/
theorem clipPlane3_of_all_below (poly : Polyhedron) (P : Plane3)
    (h : ∀ i, liveV3 poly i = true → dOf3 poly P i < 0) :
    ∀ j, liveV3 (clipPlane3 poly P) j = false := by
  by_cases hl : ∀ i, liveV3 poly i = false
  · intro j
    rw [clipPlane3_of_no_live poly P hl]
    exact hl j
  · push_neg at hl
    obtain ⟨i0, hi0⟩ := hl
    have hi0' : liveV3 poly i0 = true := by
      cases hh : liveV3 poly i0
      · exact absurd hh hi0
      · rfl
    have hi0lt : i0 < poly.length := ((liveV3_eq_true_iff poly i0).mp hi0').1
    have hB : ((List.range poly.length).any
        (fun i => liveV3 poly i && decide (dOf3 poly P i < 0))) = true := by
      simp only [List.any_eq_true, Bool.and_eq_true, decide_eq_true_eq]
      exact ⟨i0, List.mem_range.mpr hi0lt, hi0', h i0 hi0'⟩
    have hA : ((List.range poly.length).any
        (fun i => liveV3 poly i && decide (0 < dOf3 poly P i))) = false := by
      simp only [List.any_eq_false, Bool.and_eq_true, decide_eq_true_eq, not_and]
      intro x _ hx
      have := h x hx
      intro h0
      linarith
    intro j
    have hout : clipPlane3 poly P =
        poly.map (fun v => if 0 ≤ v.comp then { v with comp := -1 } else v) := by
      simp only [clipPlane3, hB, hA, Bool.not_true, Bool.not_false, if_neg, if_pos,
        Bool.false_eq_true, not_false_eq_true]
    rw [hout]
    by_cases hj : j < poly.length
    · have hj' : j < (poly.map (fun v => if 0 ≤ v.comp then { v with comp := -1 } else v)).length := by
        simpa using hj
      rw [liveV3, vAt3_eq_getElem _ j hj', List.getElem_map]
      by_cases hc : 0 ≤ poly[j].comp
      · simp [hc]
      · simp [hc]
    · exact liveV3_of_ge _ j (by simpa using Nat.le_of_not_lt hj)

/-- A polyhedron with no live vertex has no directed edges. -/
theorem allEdges3_of_no_live (poly : Polyhedron) (h : ∀ i, liveV3 poly i = false) :
    allEdges3 poly = [] := by
  simp only [allEdges3, List.flatMap_eq_nil_iff]
  intro a _
  simp only [List.map_eq_nil_iff, List.filter_eq_nil_iff]
  intro b _
  simp [h a]

/-- A polyhedron with no live vertex has no faces. -/
theorem extractFaces3_of_no_live (poly : Polyhedron) (h : ∀ i, liveV3 poly i = false) :
    extractFaces3 poly = [] := by
  simp only [extractFaces3, allEdges3_of_no_live poly h, List.foldl_nil]

/-- A polyhedron with no live vertex has zero moments. -/
theorem moments3_of_no_live (poly : Polyhedron) (h : ∀ i, liveV3 poly i = false) :
    moments3 poly = (0, Vec3.zero) := by
  simp only [moments3, extractFaces3_of_no_live poly h, List.foldl_nil]

theorem sgnQ_nonneg_iff (q : ℚ) : 0 ≤ sgnQ q ↔ 0 ≤ q := by
  unfold sgnQ
  split_ifs with h1 h2
  · exact ⟨fun _ => le_of_lt h1, fun _ => by norm_num⟩
  · exact ⟨fun h => absurd h (by norm_num), fun h => absurd h2 (not_lt.mpr h)⟩
  · exact ⟨fun _ => le_of_not_lt h2, fun _ => le_refl 0⟩

/-- The plane comparison is affine along a parametrized segment. -/
theorem compare_add_smul (P : Plane2) (u v : Vec2) (t : ℚ) :
    P.compare (Vec2.add u (Vec2.smul t (Vec2.sub v u))) =
      P.compare u + t * (P.compare v - P.compare u) := by
  simp only [Plane2.compare, Vec2.dot, Vec2.add, Vec2.smul, Vec2.sub]
  ring

/-- The interpolated cut point lies exactly on the plane when the edge
endpoints are strictly above and strictly below. -/
theorem compare_interp2 (poly : Polygon) (P : Plane2) (a b : ℕ)
    (ha : 0 < dOf poly P a) (hb : dOf poly P b < 0) :
    P.compare (interp2 poly P a b) = 0 := by
  have hne : dOf poly P a - dOf poly P b ≠ 0 := by
    intro h
    linarith
  simp only [interp2]
  rw [compare_add_smul]
  show dOf poly P a + dOf poly P a / (dOf poly P a - dOf poly P b) *
      (dOf poly P b - dOf poly P a) = 0
  field_simp
  ring

theorem vAt_append_of_lt (xs ys : Polygon) (j : ℕ) (h : j < xs.length) :
    vAt (xs ++ ys) j = vAt xs j := by
  simp [vAt, List.getD_eq_getElem?_getD, List.getElem?_append_left h]

theorem vAt_append_of_ge (xs ys : Polygon) (j : ℕ) (h : xs.length ≤ j) :
    vAt (xs ++ ys) j = vAt ys (j - xs.length) := by
  simp [vAt, List.getD_eq_getElem?_getD, List.getElem?_append_right h]

theorem vAt_map_range (f : ℕ → Vertex2) (n j : ℕ) (h : j < n) :
    vAt ((List.range n).map f) j = f j := by
  simp [vAt, List.getD_eq_getElem?_getD, List.getElem?_map, List.getElem?_range h]

/-- The 2D clip pass in the general case: updated originals followed by
the new cut vertices. -/
theorem clipPlane2_general (poly : Polygon) (P : Plane2)
    (hB : (List.range poly.length).any
      (fun i => liveV poly i && decide (dOf poly P i < 0)) = true)
    (hA : (List.range poly.length).any
      (fun i => liveV poly i && decide (0 < dOf poly P i)) = true) :
    clipPlane2 poly P =
      ((List.range poly.length).map (oldT2 poly P)) ++
        (newKeys2 poly P).map (mkNew2 poly P) := by
  simp only [clipPlane2, hB, hA, Bool.not_true, if_neg, Bool.false_eq_true,
    not_false_eq_true]

/-- The 2D clip pass when some live vertex is strictly below but none is
strictly above: every live vertex is tombstoned. -/
theorem clipPlane2_tomb (poly : Polygon) (P : Plane2)
    (hB : (List.range poly.length).any
      (fun i => liveV poly i && decide (dOf poly P i < 0)) = true)
    (hA : (List.range poly.length).any
      (fun i => liveV poly i && decide (0 < dOf poly P i)) = false) :
    clipPlane2 poly P =
      poly.map (fun v => if 0 ≤ v.comp then { v with comp := -1 } else v) := by
  simp only [clipPlane2, hB, hA, Bool.not_true, Bool.not_false, if_neg, if_pos,
    Bool.false_eq_true, not_false_eq_true]

/-- No vertex of the tombstoned polygon is live. -/
theorem liveV_tomb (poly : Polygon) (j : ℕ) :
    liveV (poly.map (fun v => if 0 ≤ v.comp then { v with comp := -1 } else v)) j
      = false := by
  by_cases hj : j < poly.length
  · have hj' : j < (poly.map
        (fun v => if 0 ≤ v.comp then { v with comp := -1 } else v)).length := by
      simpa using hj
    rw [liveV, vAt_eq_getElem _ j hj', List.getElem_map]
    by_cases hc : 0 ≤ poly[j].comp
    · simp [hc]
    · simp [hc]
  · exact liveV_of_ge _ j (by simpa using Nat.le_of_not_lt hj)

/-- Membership in the key list forces the strict sign conditions on the
generating edge. -/
theorem newKeys2_signs (poly : Polygon) (P : Plane2) (k : ℕ × ℕ × Bool)
    (hk : k ∈ newKeys2 poly P) :
    0 < dOf poly P k.1 ∧ dOf poly P k.2.1 < 0 := by
  simp only [newKeys2, List.mem_append, List.mem_map] at hk
  rcases hk with ⟨a, ha, rfl⟩ | ⟨c, hc, rfl⟩
  · simp only [descList2, List.mem_filter, Bool.and_eq_true, decide_eq_true_eq] at ha
    exact ⟨ha.2.1.2, ha.2.2⟩
  · simp only [ascList2, List.mem_filter, Bool.and_eq_true, decide_eq_true_eq] at hc
    exact ⟨hc.2.1.2, hc.2.2⟩

/-- Every vertex left live by a 2D clip pass lies on or above the plane:
kept originals have nonnegative distance and new vertices sit exactly on
the plane. -/
theorem clipPlane2_live_above (poly : Polygon) (P : Plane2) :
    ∀ j, liveV (clipPlane2 poly P) j = true → ¬ dOf (clipPlane2 poly P) P j < 0 := by
  intro j hj
  by_cases hB : (List.range poly.length).any
      (fun i => liveV poly i && decide (dOf poly P i < 0)) = true
  · by_cases hA : (List.range poly.length).any
        (fun i => liveV poly i && decide (0 < dOf poly P i)) = true
    · rw [clipPlane2_general poly P hB hA] at hj ⊢
      set base := (List.range poly.length).map (oldT2 poly P) with hbase
      set news := (newKeys2 poly P).map (mkNew2 poly P) with hnews
      have hblen : base.length = poly.length := by simp [hbase]
      have hjlen : j < base.length + news.length := by
        have := ((liveV_eq_true_iff _ j).mp hj).1
        simpa using this
      by_cases hjb : j < poly.length
      · have hva : vAt (base ++ news) j = oldT2 poly P j := by
          rw [vAt_append_of_lt _ _ j (by omega), hbase, vAt_map_range _ _ j hjb]
        have hcomp : 0 ≤ (vAt (base ++ news) j).comp :=
          ((liveV_eq_true_iff _ j).mp hj).2
        rw [hva] at hcomp
        by_cases hvc : vcomp2 poly P j = -1
        · simp only [oldT2, hvc, if_pos] at hcomp
          omega
        · have hlive : liveV poly j = true := by
            by_contra hl
            have hfl : liveV poly j = false := by
              cases hh : liveV poly j
              · rfl
              · exact absurd hh hl
            simp [vcomp2, hfl] at hvc
          have hd : dOf (base ++ news) P j = dOf poly P j := by
            simp only [dOf, hva, oldT2, hvc, if_neg, not_false_eq_true]
          rw [hd]
          have hsg : vcomp2 poly P j = sgnQ (dOf poly P j) := by
            simp [vcomp2, hlive]
          have hge : 0 ≤ (oldT2 poly P j).comp := hcomp
          simp only [oldT2, hvc, if_neg, not_false_eq_true] at hge
          rw [hsg] at hge
          have := (sgnQ_nonneg_iff (dOf poly P j)).mp hge
          linarith
      · have hjn : base.length ≤ j := by omega
        have hva : vAt (base ++ news) j = vAt news (j - base.length) := by
          rw [vAt_append_of_ge _ _ j hjn]
        have hjnews : j - base.length < news.length := by omega
        have hk : j - base.length < (newKeys2 poly P).length := by
          rw [hnews] at hjnews
          simpa using hjnews
        have hva2 : vAt news (j - base.length) =
            mkNew2 poly P ((newKeys2 poly P)[j - base.length]) := by
          rw [hnews, vAt_eq_getElem _ _ (by simpa using hk), List.getElem_map]
        have hmem : (newKeys2 poly P)[j - base.length] ∈ newKeys2 poly P :=
          List.getElem_mem hk
        obtain ⟨h1, h2⟩ := newKeys2_signs poly P _ hmem
        have hz : dOf (base ++ news) P j = 0 := by
          simp only [dOf, hva, hva2, mkNew2]
          exact compare_interp2 poly P _ _ h1 h2
        rw [hz]
        linarith
    · have hA' : (List.range poly.length).any
          (fun i => liveV poly i && decide (0 < dOf poly P i)) = false := by
        cases hh : (List.range poly.length).any
            (fun i => liveV poly i && decide (0 < dOf poly P i))
        · rfl
        · exact absurd hh hA
      rw [clipPlane2_tomb poly P hB hA'] at hj
      rw [liveV_tomb poly j] at hj
      cases hj
  · have hB' : ∀ i, liveV poly i = true → ¬ dOf poly P i < 0 := by
      intro i hi hlt
      rw [List.any_eq_true] at hB
      have hilt : i < poly.length := ((liveV_eq_true_iff poly i).mp hi).1
      exact hB ⟨i, List.mem_range.mpr hilt, by simp [hi, hlt]⟩
    rw [clipPlane2_of_not_below poly P hB'] at hj ⊢
    exact hB' j hj

/-- The 3D plane comparison is affine along a parametrized segment. -/
theorem compare3_add_smul (P : Plane3) (u v : Vec3) (t : ℚ) :
    P.compare (Vec3.add u (Vec3.smul t (Vec3.sub v u))) =
      P.compare u + t * (P.compare v - P.compare u) := by
  simp only [Plane3.compare, Vec3.dot, Vec3.add, Vec3.smul, Vec3.sub]
  ring

/-- The interpolated 3D cut point lies exactly on the plane when the
edge endpoints are strictly above and strictly below. -/
theorem compare_interp3 (poly : Polyhedron) (P : Plane3) (a b : ℕ)
    (ha : 0 < dOf3 poly P a) (hb : dOf3 poly P b < 0) :
    P.compare (interp3 poly P a b) = 0 := by
  have hne : dOf3 poly P a - dOf3 poly P b ≠ 0 := by
    intro h
    linarith
  simp only [interp3]
  rw [compare3_add_smul]
  show dOf3 poly P a + dOf3 poly P a / (dOf3 poly P a - dOf3 poly P b) *
      (dOf3 poly P b - dOf3 poly P a) = 0
  field_simp
  ring

theorem vAt3_append_of_lt (xs ys : Polyhedron) (j : ℕ) (h : j < xs.length) :
    vAt3 (xs ++ ys) j = vAt3 xs j := by
  simp [vAt3, List.getD_eq_getElem?_getD, List.getElem?_append_left h]

theorem vAt3_append_of_ge (xs ys : Polyhedron) (j : ℕ) (h : xs.length ≤ j) :
    vAt3 (xs ++ ys) j = vAt3 ys (j - xs.length) := by
  simp [vAt3, List.getD_eq_getElem?_getD, List.getElem?_append_right h]

theorem vAt3_map_range (f : ℕ → Vertex3) (n j : ℕ) (h : j < n) :
    vAt3 ((List.range n).map f) j = f j := by
  simp [vAt3, List.getD_eq_getElem?_getD, List.getElem?_map, List.getElem?_range h]

/-- The 3D clip pass in the general case: updated originals followed by
the new cut vertices. -/
theorem clipPlane3_general (poly : Polyhedron) (P : Plane3)
    (hB : (List.range poly.length).any
      (fun i => liveV3 poly i && decide (dOf3 poly P i < 0)) = true)
    (hA : (List.range poly.length).any
      (fun i => liveV3 poly i && decide (0 < dOf3 poly P i)) = true) :
    clipPlane3 poly P =
      ((List.range poly.length).map (oldT3 poly P)) ++
        (descKeys3 poly P).map (mkNew3 poly P) := by
  simp only [clipPlane3, hB, hA, Bool.not_true, if_neg, Bool.false_eq_true,
    not_false_eq_true]

/-- The 3D clip pass when some live vertex is strictly below but none is
strictly above: every live vertex is tombstoned. -/
theorem clipPlane3_tomb (poly : Polyhedron) (P : Plane3)
    (hB : (List.range poly.length).any
      (fun i => liveV3 poly i && decide (dOf3 poly P i < 0)) = true)
    (hA : (List.range poly.length).any
      (fun i => liveV3 poly i && decide (0 < dOf3 poly P i)) = false) :
    clipPlane3 poly P =
      poly.map (fun v => if 0 ≤ v.comp then { v with comp := -1 } else v) := by
  simp only [clipPlane3, hB, hA, Bool.not_true, Bool.not_false, if_neg, if_pos,
    Bool.false_eq_true, not_false_eq_true]

/-- No vertex of the tombstoned polyhedron is live. -/
theorem liveV3_tomb (poly : Polyhedron) (j : ℕ) :
    liveV3 (poly.map (fun v => if 0 ≤ v.comp then { v with comp := -1 } else v)) j
      = false := by
  by_cases hj : j < poly.length
  · have hj' : j < (poly.map
        (fun v => if 0 ≤ v.comp then { v with comp := -1 } else v)).length := by
      simpa using hj
    rw [liveV3, vAt3_eq_getElem _ j hj', List.getElem_map]
    by_cases hc : 0 ≤ poly[j].comp
    · simp [hc]
    · simp [hc]
  · exact liveV3_of_ge _ j (by simpa using Nat.le_of_not_lt hj)

/-- Membership in the 3D key list forces the strict sign conditions on
the generating directed edge. -/
theorem descKeys3_signs (poly : Polyhedron) (P : Plane3) (k : ℕ × ℕ)
    (hk : k ∈ descKeys3 poly P) :
    0 < dOf3 poly P k.1 ∧ dOf3 poly P k.2 < 0 := by
  simp only [descKeys3, List.mem_flatMap, List.mem_map] at hk
  obtain ⟨a, _, b, hb, rfl⟩ := hk
  simp only [List.mem_filter, Bool.and_eq_true, decide_eq_true_eq] at hb
  exact ⟨hb.2.1.1.2, hb.2.2⟩

/-- Every vertex left live by a 3D clip pass lies on or above the plane. -/
theorem clipPlane3_live_above (poly : Polyhedron) (P : Plane3) :
    ∀ j, liveV3 (clipPlane3 poly P) j = true → ¬ dOf3 (clipPlane3 poly P) P j < 0 := by
  intro j hj
  by_cases hB : (List.range poly.length).any
      (fun i => liveV3 poly i && decide (dOf3 poly P i < 0)) = true
  · by_cases hA : (List.range poly.length).any
        (fun i => liveV3 poly i && decide (0 < dOf3 poly P i)) = true
    · rw [clipPlane3_general poly P hB hA] at hj ⊢
      set base := (List.range poly.length).map (oldT3 poly P) with hbase
      set news := (descKeys3 poly P).map (mkNew3 poly P) with hnews
      have hblen : base.length = poly.length := by simp [hbase]
      have hjlen : j < base.length + news.length := by
        have := ((liveV3_eq_true_iff _ j).mp hj).1
        simpa using this
      by_cases hjb : j < poly.length
      · have hva : vAt3 (base ++ news) j = oldT3 poly P j := by
          rw [vAt3_append_of_lt _ _ j (by omega), hbase, vAt3_map_range _ _ j hjb]
        have hcomp : 0 ≤ (vAt3 (base ++ news) j).comp :=
          ((liveV3_eq_true_iff _ j).mp hj).2
        rw [hva] at hcomp
        by_cases hvc : vcomp3 poly P j = -1
        · simp only [oldT3, hvc, if_pos] at hcomp
          omega
        · have hlive : liveV3 poly j = true := by
            by_contra hl
            have hfl : liveV3 poly j = false := by
              cases hh : liveV3 poly j
              · rfl
              · exact absurd hh hl
            simp [vcomp3, hfl] at hvc
          have hsg : vcomp3 poly P j = sgnQ (dOf3 poly P j) := by
            simp [vcomp3, hlive]
          have hpos : (oldT3 poly P j).position = (vAt3 poly j).position := by
            unfold oldT3
            split_ifs <;> rfl
          have hd : dOf3 (base ++ news) P j = dOf3 poly P j := by
            simp only [dOf3, hva, hpos]
          rw [hd]
          have hge' : 0 ≤ sgnQ (dOf3 poly P j) := by
            rw [hsg] at hvc
            have h3 : sgnQ (dOf3 poly P j) = 1 ∨ sgnQ (dOf3 poly P j) = 0 ∨
                sgnQ (dOf3 poly P j) = -1 := by
              unfold sgnQ
              split_ifs <;> simp
            rcases h3 with h | h | h <;> omega
          have := (sgnQ_nonneg_iff (dOf3 poly P j)).mp hge'
          linarith
      · have hjn : base.length ≤ j := by omega
        have hva : vAt3 (base ++ news) j = vAt3 news (j - base.length) := by
          rw [vAt3_append_of_ge _ _ j hjn]
        have hjnews : j - base.length < news.length := by omega
        have hk : j - base.length < (descKeys3 poly P).length := by
          rw [hnews] at hjnews
          simpa using hjnews
        have hva2 : vAt3 news (j - base.length) =
            mkNew3 poly P ((descKeys3 poly P)[j - base.length]) := by
          rw [hnews, vAt3_eq_getElem _ _ (by simpa using hk), List.getElem_map]
        have hmem : (descKeys3 poly P)[j - base.length] ∈ descKeys3 poly P :=
          List.getElem_mem hk
        obtain ⟨h1, h2⟩ := descKeys3_signs poly P _ hmem
        have hz : dOf3 (base ++ news) P j = 0 := by
          simp only [dOf3, hva, hva2, mkNew3]
          exact compare_interp3 poly P _ _ h1 h2
        rw [hz]
        linarith
    · have hA' : (List.range poly.length).any
          (fun i => liveV3 poly i && decide (0 < dOf3 poly P i)) = false := by
        cases hh : (List.range poly.length).any
            (fun i => liveV3 poly i && decide (0 < dOf3 poly P i))
        · rfl
        · exact absurd hh hA
      rw [clipPlane3_tomb poly P hB hA'] at hj
      rw [liveV3_tomb poly j] at hj
      cases hj
  · have hB' : ∀ i, liveV3 poly i = true → ¬ dOf3 poly P i < 0 := by
      intro i hi hlt
      rw [List.any_eq_true] at hB
      have hilt : i < poly.length := ((liveV3_eq_true_iff poly i).mp hi).1
      exact hB ⟨i, List.mem_range.mpr hilt, by simp [hi, hlt]⟩
    rw [clipPlane3_of_not_below poly P hB'] at hj ⊢
    exact hB' j hj

/-! ## Claim theorems -/

/-- C1: for every polygon or polyhedron and every single plane P such
that every live vertex v satisfies P.compare(v.position) at least 0,
clipping with the one-plane list leaves the polytope unchanged: no
vertex is added, removed, repositioned, or rewired. -/
theorem clip_nonintersecting_unchanged :
    (∀ (poly : Polygon) (P : Plane2),
      (∀ i, liveV poly i = true → 0 ≤ dOf poly P i) → clipPolygon poly [P] = poly) ∧
    (∀ (poly : Polyhedron) (P : Plane3),
      (∀ i, liveV3 poly i = true → 0 ≤ dOf3 poly P i) → clipPolyhedron poly [P] = poly) := by
  constructor
  · intro poly P h
    show clipPlane2 poly P = poly
    refine clipPlane2_of_not_below poly P (fun i hi hlt => ?_)
    have := h i hi
    linarith
  · intro poly P h
    show clipPlane3 poly P = poly
    refine clipPlane3_of_not_below poly P (fun i hi hlt => ?_)
    have := h i hi
    linarith

/-- Witness for C1: the unit square against x at least 0 and the unit
tetrahedron against the same half space are unchanged. -/
theorem clip_nonintersecting_unchanged_witness :
    clipPolygon unitSquare [planeXzero] = unitSquare ∧
    clipPolyhedron unitTet [plane3Xzero] = unitTet := by
  constructor
  · refine clip_nonintersecting_unchanged.1 unitSquare planeXzero (fun i hi => ?_)
    have hlt : i < 4 := by
      have := ((liveV_eq_true_iff _ i).mp hi).1
      simpa [unitSquare] using this
    interval_cases i <;>
      norm_num [dOf, Plane2.compare, Vec2.dot, vAt, unitSquare, planeXzero]
  · refine clip_nonintersecting_unchanged.2 unitTet plane3Xzero (fun i hi => ?_)
    have hlt : i < 4 := by
      have := ((liveV3_eq_true_iff _ i).mp hi).1
      simpa [unitTet] using this
    interval_cases i <;>
      norm_num [dOf3, Plane3.compare, Vec3.dot, vAt3, unitTet, plane3Xzero]

/-- C2: if every live vertex is strictly below the leading plane, the
clip removes every live vertex, leaving an empty polytope, without
error; on the result moments returns zero and extractFaces returns the
empty list, and subsequent planes leave the polytope empty. -/
theorem clip_all_below_empties :
    (∀ (poly : Polygon) (P : Plane2) (rest : List Plane2),
      (∀ i, liveV poly i = true → dOf poly P i < 0) →
      (∀ j, liveV (clipPolygon poly (P :: rest)) j = false) ∧
        moments2 (clipPolygon poly (P :: rest)) = (0, Vec2.zero) ∧
        extractFaces2 (clipPolygon poly (P :: rest)) = []) ∧
    (∀ (poly : Polyhedron) (P : Plane3) (rest : List Plane3),
      (∀ i, liveV3 poly i = true → dOf3 poly P i < 0) →
      (∀ j, liveV3 (clipPolyhedron poly (P :: rest)) j = false) ∧
        moments3 (clipPolyhedron poly (P :: rest)) = (0, Vec3.zero) ∧
        extractFaces3 (clipPolyhedron poly (P :: rest)) = []) := by
  constructor
  · intro poly P rest h
    have hdead : ∀ j, liveV (clipPlane2 poly P) j = false :=
      clipPlane2_of_all_below poly P h
    have hq : clipPolygon poly (P :: rest) = clipPlane2 poly P := by
      show clipPolygon (clipPlane2 poly P) rest = clipPlane2 poly P
      exact clipPolygon_of_no_live _ rest hdead
    rw [hq]
    exact ⟨hdead, moments2_of_no_live _ hdead, extractFaces2_of_no_live _ hdead⟩
  · intro poly P rest h
    have hdead : ∀ j, liveV3 (clipPlane3 poly P) j = false :=
      clipPlane3_of_all_below poly P h
    have hq : clipPolyhedron poly (P :: rest) = clipPlane3 poly P := by
      show clipPolyhedron (clipPlane3 poly P) rest = clipPlane3 poly P
      exact clipPolyhedron_of_no_live _ rest hdead
    rw [hq]
    exact ⟨hdead, moments3_of_no_live _ hdead, extractFaces3_of_no_live _ hdead⟩

/-- Witness for C2: the unit square and the unit tetrahedron clipped by
x at least 2 (then x at least 0) become empty with zero moments and no
faces. -/
theorem clip_all_below_empties_witness :
    ((∀ j, liveV (clipPolygon unitSquare [planeXtwo, planeXzero]) j = false) ∧
      moments2 (clipPolygon unitSquare [planeXtwo, planeXzero]) = (0, Vec2.zero) ∧
      extractFaces2 (clipPolygon unitSquare [planeXtwo, planeXzero]) = []) ∧
    ((∀ j, liveV3 (clipPolyhedron unitTet [plane3Xtwo, plane3Xzero]) j = false) ∧
      moments3 (clipPolyhedron unitTet [plane3Xtwo, plane3Xzero]) = (0, Vec3.zero) ∧
      extractFaces3 (clipPolyhedron unitTet [plane3Xtwo, plane3Xzero]) = []) := by
  constructor
  · refine clip_all_below_empties.1 unitSquare planeXtwo [planeXzero] (fun i hi => ?_)
    have hlt : i < 4 := by
      have := ((liveV_eq_true_iff _ i).mp hi).1
      simpa [unitSquare] using this
    interval_cases i <;>
      norm_num [dOf, Plane2.compare, Vec2.dot, vAt, unitSquare, planeXtwo]
  · refine clip_all_below_empties.2 unitTet plane3Xtwo [plane3Xzero] (fun i hi => ?_)
    have hlt : i < 4 := by
      have := ((liveV3_eq_true_iff _ i).mp hi).1
      simpa [unitTet] using this
    interval_cases i <;>
      norm_num [dOf3, Plane3.compare, Vec3.dot, vAt3, unitTet, plane3Xtwo]

/-- C4: clipping is deterministic, and applying a whole plane list in
one call equals clipping with each single-plane list in order. -/
theorem clip_deterministic_and_sequential :
    (∀ (poly : Polygon) (planes : List Plane2),
      clipPolygon poly planes =
        planes.foldl (fun q P => clipPolygon q [P]) poly) ∧
    (∀ (poly : Polyhedron) (planes : List Plane3),
      clipPolyhedron poly planes =
        planes.foldl (fun q P => clipPolyhedron q [P]) poly) ∧
    (∀ (p1 p2 : Polygon) (L1 L2 : List Plane2), p1 = p2 → L1 = L2 →
      clipPolygon p1 L1 = clipPolygon p2 L2) ∧
    (∀ (p1 p2 : Polyhedron) (L1 L2 : List Plane3), p1 = p2 → L1 = L2 →
      clipPolyhedron p1 L1 = clipPolyhedron p2 L2) := by
  refine ⟨?_, ?_, ?_, ?_⟩
  · intro poly planes
    induction planes generalizing poly with
    | nil => rfl
    | cons P rest ih => exact ih (clipPlane2 poly P)
  · intro poly planes
    induction planes generalizing poly with
    | nil => rfl
    | cons P rest ih => exact ih (clipPlane3 poly P)
  · intro p1 p2 L1 L2 h1 h2
    rw [h1, h2]
  · intro p1 p2 L1 L2 h1 h2
    rw [h1, h2]

/-- Witness for C4: one-call clipping of the square by two planes equals
the two sequential single-plane clips, and equal inputs give equal
outputs. -/
theorem clip_deterministic_and_sequential_witness :
    clipPolygon unitSquare [planeXzero, planeXhalf] =
      clipPolygon (clipPolygon unitSquare [planeXzero]) [planeXhalf] ∧
    clipPolyhedron unitTet [plane3Xzero] = clipPolyhedron unitTet [plane3Xzero] := by
  constructor
  · exact clip_deterministic_and_sequential.1 unitSquare [planeXzero, planeXhalf]
  · exact clip_deterministic_and_sequential.2.2.2 unitTet unitTet
      [plane3Xzero] [plane3Xzero] rfl rfl

/-- C5: clipping is idempotent per plane; clipping the result of a
single-plane clip again with the same plane changes nothing, in 2D and
in 3D. -/
theorem clip_idempotent_per_plane :
    (∀ (poly : Polygon) (p : Plane2),
      clipPolygon (clipPolygon poly [p]) [p] = clipPolygon poly [p]) ∧
    (∀ (poly : Polyhedron) (p : Plane3),
      clipPolyhedron (clipPolyhedron poly [p]) [p] = clipPolyhedron poly [p]) := by
  constructor
  · intro poly p
    show clipPlane2 (clipPlane2 poly p) p = clipPlane2 poly p
    exact clipPlane2_of_not_below _ p (clipPlane2_live_above poly p)
  · intro poly p
    show clipPlane3 (clipPlane3 poly p) p = clipPlane3 poly p
    exact clipPlane3_of_not_below _ p (clipPlane3_live_above poly p)

/-- IEEE double equality holds exactly when both operands carry the same
defined numeric value (so never for NaN, and across the two zeros). -/
theorem dblEq_iff_val (a b : Dbl) :
    dblEq a b = true ↔ ∃ q, a.val = some q ∧ b.val = some q := by
  cases a <;> cases b <;> simp only [dblEq, Dbl.val, beq_iff_eq, Option.some.injEq,
    Bool.false_eq_true, false_iff, not_exists, not_and]
  · exact ⟨fun h => ⟨_, h, rfl⟩, fun ⟨q, h1, h2⟩ => h1.trans h2.symm⟩
  · exact ⟨fun h => ⟨0, h, rfl⟩, fun ⟨q, h1, h2⟩ => h1.trans h2.symm⟩
  · intro q h1 h2
    simp at h2
  · exact ⟨fun h => ⟨0, rfl, h⟩, fun ⟨q, h1, h2⟩ => h2.trans h1.symm⟩
  · exact iff_of_true trivial ⟨0, rfl, rfl⟩
  · intro q h1 h2
    simp at h2
  · intro q h1 h2
    simp at h1
  · intro q h1 h2
    simp at h1
  · intro q h1 h2
    simp at h1

/-- A non-NaN double is IEEE-equal to itself. -/
theorem dblEq_self (a : Dbl) (h : a.isNaN = false) : dblEq a a = true := by
  cases a <;> simp_all [dblEq, Dbl.isNaN]

/-- A NaN double is not IEEE-equal to itself. -/
theorem dblEq_self_nan (a : Dbl) (h : a.isNaN = true) : dblEq a a = false := by
  cases a <;> simp_all [dblEq, Dbl.isNaN]

/-- Counterexample to C9: vector equality is not bitwise.  A vector with
a NaN component is not equal to itself even though the bit patterns
agree, and vectors distinguished only by the sign of a zero compare
equal even though the bit patterns differ. -/
theorem vector_eq_not_bitwise_counterexample :
    Vector2d.eq ⟨Dbl.nan 0, Dbl.num 0⟩ ⟨Dbl.nan 0, Dbl.num 0⟩ = false ∧
    (⟨Dbl.num 0, Dbl.num 0⟩ : Vector2d) ≠ ⟨Dbl.negZero, Dbl.num 0⟩ ∧
    Vector2d.eq ⟨Dbl.num 0, Dbl.num 0⟩ ⟨Dbl.negZero, Dbl.num 0⟩ = true ∧
    Vector3d.eq ⟨Dbl.nan 0, Dbl.num 0, Dbl.num 0⟩ ⟨Dbl.nan 0, Dbl.num 0, Dbl.num 0⟩
      = false := by
  refine ⟨by decide, by decide, by decide, by decide⟩

/-- C9 (amended): equality on Vec2 and Vec3 is componentwise IEEE-754
double equality: u == v holds exactly when every pair of corresponding
components carries the same defined numeric value; vectors free of NaN
components equal themselves (+0.0 and -0.0 comparing equal), while any
vector with a NaN component is unequal to itself. -/
theorem vector_eq_componentwise_ieee :
    (∀ u v : Vector2d,
      (Vector2d.eq u v = true ↔
        ((∃ q, u.x.val = some q ∧ v.x.val = some q) ∧
          (∃ q, u.y.val = some q ∧ v.y.val = some q))) ∧
      (u.x.isNaN = false → u.y.isNaN = false → Vector2d.eq u u = true) ∧
      (u.x.isNaN = true ∨ u.y.isNaN = true → Vector2d.eq u u = false)) ∧
    (∀ u v : Vector3d,
      (Vector3d.eq u v = true ↔
        ((∃ q, u.x.val = some q ∧ v.x.val = some q) ∧
          (∃ q, u.y.val = some q ∧ v.y.val = some q) ∧
          (∃ q, u.z.val = some q ∧ v.z.val = some q))) ∧
      (u.x.isNaN = false → u.y.isNaN = false → u.z.isNaN = false →
        Vector3d.eq u u = true) ∧
      (u.x.isNaN = true ∨ u.y.isNaN = true ∨ u.z.isNaN = true →
        Vector3d.eq u u = false)) := by
  constructor
  · intro u v
    refine ⟨?_, ?_, ?_⟩
    · simp [Vector2d.eq, dblEq_iff_val]
    · intro hx hy
      simp [Vector2d.eq, dblEq_self _ hx, dblEq_self _ hy]
    · intro h
      rcases h with h | h
      · simp [Vector2d.eq, dblEq_self_nan _ h]
      · simp [Vector2d.eq, dblEq_self_nan _ h]
  · intro u v
    refine ⟨?_, ?_, ?_⟩
    · simp [Vector3d.eq, dblEq_iff_val, and_assoc]
    · intro hx hy hz
      simp [Vector3d.eq, dblEq_self _ hx, dblEq_self _ hy, dblEq_self _ hz]
    · intro h
      rcases h with h | h | h
      · simp [Vector3d.eq, dblEq_self_nan _ h]
      · simp [Vector3d.eq, dblEq_self_nan _ h]
      · simp [Vector3d.eq, dblEq_self_nan _ h]

/-- Witness for C9 (amended): a NaN-free vector equals itself and a
NaN-bearing vector does not. -/
theorem vector_eq_componentwise_ieee_witness :
    Vector2d.eq ⟨Dbl.num 1, Dbl.negZero⟩ ⟨Dbl.num 1, Dbl.negZero⟩ = true ∧
    Vector3d.eq ⟨Dbl.nan 3, Dbl.num 0, Dbl.num 0⟩ ⟨Dbl.nan 3, Dbl.num 0, Dbl.num 0⟩
      = false :=
  ⟨(vector_eq_componentwise_ieee.1 ⟨Dbl.num 1, Dbl.negZero⟩
      ⟨Dbl.num 1, Dbl.negZero⟩).2.1 rfl rfl,
    (vector_eq_componentwise_ieee.2 ⟨Dbl.nan 3, Dbl.num 0, Dbl.num 0⟩
      ⟨Dbl.nan 3, Dbl.num 0, Dbl.num 0⟩).2.2 (Or.inl rfl)⟩

/-- Counterexample to C10: two planes with identical geometry fields
(a NaN distance and the same normal) and different IDs do not compare
equal, because IEEE equality on the NaN distance fails. -/
theorem plane_eq_nan_counterexample :
    (⟨Dbl.nan 0, ⟨Dbl.num 1, Dbl.num 0⟩, 0⟩ : Plane2d).dist
        = (⟨Dbl.nan 0, ⟨Dbl.num 1, Dbl.num 0⟩, 1⟩ : Plane2d).dist ∧
    (⟨Dbl.nan 0, ⟨Dbl.num 1, Dbl.num 0⟩, 0⟩ : Plane2d).normal
        = (⟨Dbl.nan 0, ⟨Dbl.num 1, Dbl.num 0⟩, 1⟩ : Plane2d).normal ∧
    (⟨Dbl.nan 0, ⟨Dbl.num 1, Dbl.num 0⟩, 0⟩ : Plane2d).ID
        ≠ (⟨Dbl.nan 0, ⟨Dbl.num 1, Dbl.num 0⟩, 1⟩ : Plane2d).ID ∧
    Plane2d.eq ⟨Dbl.nan 0, ⟨Dbl.num 1, Dbl.num 0⟩, 0⟩
        ⟨Dbl.nan 0, ⟨Dbl.num 1, Dbl.num 0⟩, 1⟩ = false ∧
    Plane3d.eq ⟨Dbl.nan 0, ⟨Dbl.num 1, Dbl.num 0, Dbl.num 0⟩, 0⟩
        ⟨Dbl.nan 0, ⟨Dbl.num 1, Dbl.num 0, Dbl.num 0⟩, 1⟩ = false := by
  refine ⟨by decide, by decide, by decide, by decide, by decide⟩

/-- C10 (amended): plane equality reads only the distance and the
normal, never the ID, and is p == q iff p.dist == q.dist and p.normal ==
q.normal with == the IEEE double comparison; planes with the same
NaN-free geometry and different IDs compare equal, while a NaN in the
geometry makes even identically-stored planes unequal; != is the
negation of ==. -/
theorem plane_eq_geometry_only :
    (∀ p q : Plane2d,
      Plane2d.eq p q = (dblEq p.dist q.dist && Vector2d.eq p.normal q.normal)) ∧
    (∀ (p q : Plane2d) (i j : ℤ),
      Plane2d.eq ⟨p.dist, p.normal, i⟩ ⟨q.dist, q.normal, j⟩ = Plane2d.eq p q) ∧
    (∀ p q : Plane2d, Plane2d.neq p q = !(Plane2d.eq p q)) ∧
    (∀ (p : Plane2d) (i j : ℤ), p.dist.isNaN = false → p.normal.x.isNaN = false →
      p.normal.y.isNaN = false →
      Plane2d.eq ⟨p.dist, p.normal, i⟩ ⟨p.dist, p.normal, j⟩ = true) ∧
    (∀ p q : Plane3d,
      Plane3d.eq p q = (dblEq p.dist q.dist && Vector3d.eq p.normal q.normal)) ∧
    (∀ (p q : Plane3d) (i j : ℤ),
      Plane3d.eq ⟨p.dist, p.normal, i⟩ ⟨q.dist, q.normal, j⟩ = Plane3d.eq p q) ∧
    (∀ p q : Plane3d, Plane3d.neq p q = !(Plane3d.eq p q)) ∧
    (∀ (p : Plane3d) (i j : ℤ), p.dist.isNaN = false → p.normal.x.isNaN = false →
      p.normal.y.isNaN = false → p.normal.z.isNaN = false →
      Plane3d.eq ⟨p.dist, p.normal, i⟩ ⟨p.dist, p.normal, j⟩ = true) := by
  refine ⟨fun p q => rfl, fun p q i j => rfl, fun p q => rfl, ?_,
    fun p q => rfl, fun p q i j => rfl, fun p q => rfl, ?_⟩
  · intro p i j hd hx hy
    simp [Plane2d.eq, Vector2d.eq, dblEq_self _ hd, dblEq_self _ hx, dblEq_self _ hy]
  · intro p i j hd hx hy hz
    simp [Plane3d.eq, Vector3d.eq, dblEq_self _ hd, dblEq_self _ hx, dblEq_self _ hy,
      dblEq_self _ hz]

/-- Witness for C10 (amended): two NaN-free planes differing only in ID
compare equal. -/
theorem plane_eq_geometry_only_witness :
    Plane2d.eq ⟨Dbl.num 2, ⟨Dbl.num 1, Dbl.num 0⟩, 5⟩
      ⟨Dbl.num 2, ⟨Dbl.num 1, Dbl.num 0⟩, 9⟩ = true ∧
    Plane3d.eq ⟨Dbl.num 2, ⟨Dbl.num 1, Dbl.num 0, Dbl.num 0⟩, 5⟩
      ⟨Dbl.num 2, ⟨Dbl.num 1, Dbl.num 0, Dbl.num 0⟩, 9⟩ = true :=
  ⟨plane_eq_geometry_only.2.2.2.1 ⟨Dbl.num 2, ⟨Dbl.num 1, Dbl.num 0⟩, 0⟩ 5 9
      rfl rfl rfl,
    plane_eq_geometry_only.2.2.2.2.2.2.2 ⟨Dbl.num 2, ⟨Dbl.num 1, Dbl.num 0, Dbl.num 0⟩, 0⟩
      5 9 rfl rfl rfl rfl⟩

/-- Counterexample to C7: on the unit square clipped by x at least 1/2,
moments does not return (0.5, (0.75, 0.5)); by the spec 4.3 definition
the first moment is the zeroth moment times the centroid, which is
(0.375, 0.25), not (0.75, 0.5). -/
theorem square_clip_moments_counterexample :
    moments2 (clipPolygon unitSquare [planeXhalf]) ≠
      ((1/2 : ℚ), (⟨3/4, 1/2⟩ : Vec2)) := by
  norm_num [clipPolygon, clipPlane2, unitSquare, planeXhalf, moments2, vAt, liveV, nxt,
    prv, dOf, Plane2.compare, Vec2.dot, vcomp2, sgnQ, descList2, ascList2, newKeys2,
    mkNew2, oldT2, outIdx2, inIdx2, exitNode2, entryNode2, walkNext2, walkPrev2, walkGen, interp2,
    Vec2.cross, Vec2.sub, Vec2.add, Vec2.smul, Vec2.zero, List.range_succ, List.find?,
    List.foldl, List.filter, List.indexOf, List.findIdx, List.findIdx.go]

/-- C7 (amended): clipping the unit square by the plane with normal
(1,0) and dist -1/2 yields the rectangle from 1/2 to 1 by 0 to 1 (live
vertices (1,0), (1,1), (1/2,1), (1/2,0) in one closed loop), and
moments returns zeroth moment 1/2 and first moment (3/8, 1/4), which is
the zeroth moment 1/2 times the centroid (3/4, 1/2). -/
theorem square_clip_moments :
    ((List.range (clipPolygon unitSquare [planeXhalf]).length).filter
        (fun i => liveV (clipPolygon unitSquare [planeXhalf]) i)).map
      (fun i => (vAt (clipPolygon unitSquare [planeXhalf]) i).position) =
      [⟨1, 0⟩, ⟨1, 1⟩, ⟨1/2, 1⟩, ⟨1/2, 0⟩] ∧
    nxt (clipPolygon unitSquare [planeXhalf]) 1 = 2 ∧
    nxt (clipPolygon unitSquare [planeXhalf]) 2 = 4 ∧
    nxt (clipPolygon unitSquare [planeXhalf]) 4 = 5 ∧
    nxt (clipPolygon unitSquare [planeXhalf]) 5 = 1 ∧
    moments2 (clipPolygon unitSquare [planeXhalf]) = (1/2, ⟨3/8, 1/4⟩) ∧
    (⟨3/8, 1/4⟩ : Vec2) = Vec2.smul (1/2) ⟨3/4, 1/2⟩ := by
  norm_num [clipPolygon, clipPlane2, unitSquare, planeXhalf, moments2, vAt, liveV, nxt,
    prv, dOf, Plane2.compare, Vec2.dot, vcomp2, sgnQ, descList2, ascList2, newKeys2,
    mkNew2, oldT2, outIdx2, inIdx2, exitNode2, entryNode2, walkNext2, walkPrev2, walkGen, interp2,
    Vec2.cross, Vec2.sub, Vec2.add, Vec2.smul, Vec2.zero, List.range_succ, List.find?,
    List.foldl, List.filter, List.indexOf, List.findIdx, List.findIdx.go]

theorem dist2_nonneg (a b : Vec2) : 0 ≤ Vec2.dist2 a b := by
  unfold Vec2.dist2
  positivity

theorem dist2_nonneg3 (a b : Vec3) : 0 ≤ Vec3.dist2 a b := by
  unfold Vec3.dist2
  positivity

/-- At tolerance 0 no 2D merge can fire: the strict distance test is
unsatisfiable. -/
theorem mergeStep2_zero (poly : Polygon) (i : ℕ) : mergeStep2 0 poly i = poly := by
  unfold mergeStep2
  cases hl : liveV poly i
  · simp [hl]
  · have hnot : ¬ Vec2.dist2 (vAt poly i).position
        (vAt poly (nxt poly i)).position < 0 := by
      have := dist2_nonneg (vAt poly i).position (vAt poly (nxt poly i)).position
      linarith
    simp [hl, hnot]

theorem collapsePass2_zero (poly : Polygon) : collapsePass2 0 poly = poly := by
  unfold collapsePass2
  have h : ∀ (l : List ℕ) (p : Polygon), l.foldl (mergeStep2 0) p = p := by
    intro l
    induction l with
    | nil => intro p; rfl
    | cons x xs ih =>
      intro p
      rw [List.foldl_cons, mergeStep2_zero]
      exact ih p
  exact h _ _

theorem collapseIter2_zero (fuel : ℕ) (poly : Polygon) :
    collapseIter2 fuel 0 poly = poly := by
  cases fuel
  · rfl
  · unfold collapseIter2
    rw [collapsePass2_zero]
    simp

theorem map_vAt_range (poly : Polygon) :
    (List.range poly.length).map (vAt poly) = poly := by
  apply List.ext_getElem
  · simp
  · intro i h1 h2
    rw [List.getElem_map, List.getElem_range, vAt_eq_getElem poly i h2]

/-- Compaction is the identity on a polygon whose vertices are all live
with in-range neighbor indices. -/
theorem compact2_of_all_live (poly : Polygon)
    (hl : ∀ i, i < poly.length → liveV poly i = true)
    (hnb : ∀ i, i < poly.length → prv poly i < poly.length ∧ nxt poly i < poly.length) :
    compact2 poly = poly := by
  unfold compact2
  have hm : ∀ k, k ≤ poly.length →
      ((List.range k).filter (fun j => liveV poly j)).length = k := by
    intro k hk
    rw [List.filter_eq_self.mpr]
    · simp
    · intro a ha
      exact hl a (lt_of_lt_of_le (List.mem_range.mp ha) hk)
  have haux : ∀ (l : List ℕ), (∀ x ∈ l, x < poly.length) →
      l.filterMap (fun i =>
        if liveV poly i then
          some { vAt poly i with
            prev := ((List.range (prv poly i)).filter (fun j => liveV poly j)).length,
            next := ((List.range (nxt poly i)).filter (fun j => liveV poly j)).length }
        else none) = l.map (vAt poly) := by
    intro l
    induction l with
    | nil => intro _; rfl
    | cons x xs ih =>
      intro hmem
      have hx : x < poly.length := hmem x (List.mem_cons_self x xs)
      rw [List.filterMap_cons, List.map_cons]
      rw [if_pos (hl x hx), hm _ (le_of_lt (hnb x hx).1), hm _ (le_of_lt (hnb x hx).2)]
      have hrec : { vAt poly x with prev := prv poly x, next := nxt poly x }
          = vAt poly x := rfl
      rw [hrec, ih (fun y hy => hmem y (List.mem_cons_of_mem x hy))]
  rw [haux (List.range poly.length) (fun x hx => List.mem_range.mp hx), map_vAt_range]

/-- A vertex index out of range is never pinched. -/
theorem pinched3_of_ge (poly : Polyhedron) (i : ℕ) (h : poly.length ≤ i) :
    pinched3 poly i = false := by
  simp [pinched3, liveV3_of_ge poly i h]

/-- At tolerance 0 no 3D merge can fire. -/
theorem mergeStep3_zero (poly : Polyhedron) (i : ℕ) : mergeStep3 0 poly i = poly := by
  have hfind : (vAt3 poly i).neighbors.find? (fun j =>
      liveV3 poly j && decide (j ≠ i) &&
      decide (Vec3.dist2 (vAt3 poly i).position (vAt3 poly j).position < (0:ℚ) ^ 2))
      = none := by
    rw [List.find?_eq_none]
    intro j _
    have hge := dist2_nonneg3 (vAt3 poly i).position (vAt3 poly j).position
    have hnot : ¬ Vec3.dist2 (vAt3 poly i).position (vAt3 poly j).position
        < (0:ℚ) ^ 2 := by
      rw [show ((0:ℚ)^2 = 0) by norm_num]
      linarith
    simp only [Bool.and_eq_true, decide_eq_true_eq]
    rintro ⟨_, hc⟩
    exact hnot hc
  unfold mergeStep3
  cases hl : liveV3 poly i
  · simp [hl]
  · rw [if_pos rfl, hfind]

theorem collapsePass3_zero (poly : Polyhedron) : collapsePass3 0 poly = poly := by
  unfold collapsePass3
  have h : ∀ (l : List ℕ) (p : Polyhedron), l.foldl (mergeStep3 0) p = p := by
    intro l
    induction l with
    | nil => intro p; rfl
    | cons x xs ih =>
      intro p
      rw [List.foldl_cons, mergeStep3_zero]
      exact ih p
  exact h _ _

theorem map_vAt3_range (poly : Polyhedron) :
    (List.range poly.length).map (vAt3 poly) = poly := by
  apply List.ext_getElem
  · simp
  · intro i h1 h2
    rw [List.getElem_map, List.getElem_range, vAt3_eq_getElem poly i h2]

/-- Pinch removal is the identity when no vertex is pinched. -/
theorem pinch3_of_no_pinched (poly : Polyhedron)
    (h : ∀ i, pinched3 poly i = false) : pinch3 poly = poly := by
  unfold pinch3
  have haux : ∀ i, (fun i =>
      let v := vAt3 poly i
      if pinched3 poly i then { v with comp := -1 }
      else { v with neighbors := v.neighbors.filter (fun x => !pinched3 poly x) }) i
      = vAt3 poly i := by
    intro i
    simp only [h i, if_neg, Bool.false_eq_true, not_false_eq_true]
    have : (vAt3 poly i).neighbors.filter (fun x => !pinched3 poly x)
        = (vAt3 poly i).neighbors := by
      rw [List.filter_eq_self.mpr]
      intro a _
      simp [h a]
    rw [this]
  rw [List.map_congr_left (fun i _ => haux i), map_vAt3_range]

theorem collapseIter3_zero (fuel : ℕ) (poly : Polyhedron)
    (h : ∀ i, pinched3 poly i = false) :
    collapseIter3 fuel 0 poly = poly := by
  cases fuel
  · rfl
  · unfold collapseIter3
    rw [collapsePass3_zero, pinch3_of_no_pinched poly h]
    simp

/-- 3D compaction is the identity on an all-live polyhedron with
in-range neighbor indices. -/
theorem compact3_of_all_live (poly : Polyhedron)
    (hl : ∀ i, i < poly.length → liveV3 poly i = true)
    (hnb : ∀ i, i < poly.length → ∀ b ∈ (vAt3 poly i).neighbors, b < poly.length) :
    compact3 poly = poly := by
  unfold compact3
  have hm : ∀ k, k ≤ poly.length →
      ((List.range k).filter (fun j => liveV3 poly j)).length = k := by
    intro k hk
    rw [List.filter_eq_self.mpr]
    · simp
    · intro a ha
      exact hl a (lt_of_lt_of_le (List.mem_range.mp ha) hk)
  have haux : ∀ (l : List ℕ), (∀ x ∈ l, x < poly.length) →
      l.filterMap (fun i =>
        if liveV3 poly i then
          some { vAt3 poly i with
            neighbors := (vAt3 poly i).neighbors.map
              (fun b => ((List.range b).filter (fun j => liveV3 poly j)).length) }
        else none) = l.map (vAt3 poly) := by
    intro l
    induction l with
    | nil => intro _; rfl
    | cons x xs ih =>
      intro hmem
      have hx : x < poly.length := hmem x (List.mem_cons_self x xs)
      rw [List.filterMap_cons, List.map_cons]
      rw [if_pos (hl x hx)]
      have hnbmap : (vAt3 poly x).neighbors.map
          (fun b => ((List.range b).filter (fun j => liveV3 poly j)).length)
          = (vAt3 poly x).neighbors := by
        rw [List.map_congr_left (fun b hb => hm b (le_of_lt (hnb x hx b hb))),
          List.map_id']
      rw [hnbmap]
      have hrec : { vAt3 poly x with neighbors := (vAt3 poly x).neighbors }
          = vAt3 poly x := rfl
      rw [hrec, ih (fun y hy => hmem y (List.mem_cons_of_mem x hy))]
  rw [haux (List.range poly.length) (fun x hx => List.mem_range.mp hx), map_vAt3_range]

/-- Counterexample to C8: vertices 0 and 1 of this polygon are adjacent,
live and exactly coincident (distance exactly 0), yet collapseDegenerates
at tol = 0 merges nothing: the polygon is returned unchanged with both
vertices still live. -/
theorem collapse_tol_zero_keeps_coincident :
    (vAt dupSquare 0).position = (vAt dupSquare 1).position ∧
    nxt dupSquare 0 = 1 ∧
    liveV dupSquare 0 = true ∧
    liveV dupSquare 1 = true ∧
    collapseDegenerates2 dupSquare 0 = dupSquare ∧
    liveV (collapseDegenerates2 dupSquare 0) 1 = true := by
  have hco : collapseDegenerates2 dupSquare 0 = dupSquare := by
    unfold collapseDegenerates2
    rw [collapseIter2_zero]
    apply compact2_of_all_live
    · decide
    · decide
  refine ⟨by decide, by decide, by decide, by decide, hco, ?_⟩
  rw [hco]
  decide

/-- C8 (amended): collapseDegenerates merges adjacent live vertices at
Euclidean distance strictly less than tol, iterated to a fixed point;
with tol = 0 the strict test is unsatisfiable, so nothing at all is
merged — not even exactly coincident adjacent vertices — and on a
compact polytope (all vertices live, neighbor indices in range, and in
3D no pinched degree-2 vertex) the operation is the identity. -/
theorem collapseDegenerates_tol_zero_noop :
    (∀ poly : Polygon,
      (∀ i, i < poly.length → liveV poly i = true) →
      (∀ i, i < poly.length → prv poly i < poly.length ∧ nxt poly i < poly.length) →
      collapseDegenerates2 poly 0 = poly) ∧
    (∀ poly : Polyhedron,
      (∀ i, i < poly.length → liveV3 poly i = true) →
      (∀ i, i < poly.length → ∀ b ∈ (vAt3 poly i).neighbors, b < poly.length) →
      (∀ i, i < poly.length → pinched3 poly i = false) →
      collapseDegenerates3 poly 0 = poly) := by
  constructor
  · intro poly hl hnb
    unfold collapseDegenerates2
    rw [collapseIter2_zero]
    exact compact2_of_all_live poly hl hnb
  · intro poly hl hnb hp
    have hp2 : ∀ i, pinched3 poly i = false := by
      intro i
      by_cases hi : i < poly.length
      · exact hp i hi
      · exact pinched3_of_ge poly i (by omega)
    unfold collapseDegenerates3
    rw [collapseIter3_zero _ _ hp2]
    exact compact3_of_all_live poly hl hnb

/-- Witness for C8 (amended): the duplicated-corner square and the unit
tetrahedron are unchanged by collapseDegenerates at tol = 0. -/
theorem collapseDegenerates_tol_zero_noop_witness :
    collapseDegenerates2 dupSquare 0 = dupSquare ∧
    collapseDegenerates3 unitTet 0 = unitTet :=
  ⟨collapseDegenerates_tol_zero_noop.1 dupSquare (by decide) (by decide),
    collapseDegenerates_tol_zero_noop.2 unitTet (by decide) (by decide) (by decide)⟩

/-- The generating keys, projected to directed-edge pairs. -/
theorem newKeys2_pairs_eq (poly : Polygon) (P : Plane2) :
    (newKeys2 poly P).map (fun k => (k.1, k.2.1)) =
      (descList2 poly P).map (fun a => (a, nxt poly a)) ++
        (ascList2 poly P).map (fun c => (c, prv poly c)) := by
  simp only [newKeys2, List.map_append, List.map_map]
  rfl

theorem mem_descList2 (poly : Polygon) (P : Plane2) (a : ℕ) :
    a ∈ descList2 poly P ↔
      liveV poly a = true ∧ liveV poly (nxt poly a) = true ∧
        0 < dOf poly P a ∧ dOf poly P (nxt poly a) < 0 := by
  simp only [descList2, List.mem_filter, List.mem_range, Bool.and_eq_true,
    decide_eq_true_eq]
  constructor
  · rintro ⟨_, ⟨⟨h1, h2⟩, h3⟩, h4⟩
    exact ⟨h1, h2, h3, h4⟩
  · rintro ⟨h1, h2, h3, h4⟩
    exact ⟨((liveV_eq_true_iff poly a).mp h1).1, ⟨⟨h1, h2⟩, h3⟩, h4⟩

theorem mem_ascList2 (poly : Polygon) (P : Plane2) (c : ℕ) :
    c ∈ ascList2 poly P ↔
      liveV poly c = true ∧ liveV poly (prv poly c) = true ∧
        0 < dOf poly P c ∧ dOf poly P (prv poly c) < 0 := by
  simp only [ascList2, List.mem_filter, List.mem_range, Bool.and_eq_true,
    decide_eq_true_eq]
  constructor
  · rintro ⟨_, ⟨⟨h1, h2⟩, h3⟩, h4⟩
    exact ⟨h1, h2, h3, h4⟩
  · rintro ⟨h1, h2, h3, h4⟩
    exact ⟨((liveV_eq_true_iff poly c).mp h1).1, ⟨⟨h1, h2⟩, h3⟩, h4⟩

/-- Without digons, the directed-edge pairs of the new vertices are
pairwise distinct: one new vertex per descending directed edge. -/
theorem newKeys2_pairs_nodup (poly : Polygon) (P : Plane2)
    (hd : ∀ a, a < poly.length → liveV poly a = true → prv poly a ≠ nxt poly a) :
    ((newKeys2 poly P).map (fun k => (k.1, k.2.1))).Nodup := by
  rw [newKeys2_pairs_eq]
  have hD : (descList2 poly P).Nodup := (List.nodup_range poly.length).filter _
  have hA : (ascList2 poly P).Nodup := (List.nodup_range poly.length).filter _
  refine List.Nodup.append (hD.map_on ?_) (hA.map_on ?_) ?_
  · intro x _ y _ hxy
    exact (Prod.mk.injEq _ _ _ _ ▸ hxy).1
  · intro x _ y _ hxy
    exact (Prod.mk.injEq _ _ _ _ ▸ hxy).1
  · intro x hx hy
    simp only [List.mem_map] at hx hy
    obtain ⟨a, ha, rfl⟩ := hx
    obtain ⟨c, hc, hac⟩ := hy
    obtain ⟨h1, h2⟩ := Prod.mk.inj hac
    subst h1
    have hcm := (mem_descList2 poly P c).mp ha
    exact hd c ((liveV_eq_true_iff poly c).mp hcm.1).1 hcm.1 h2

/-- The directed-edge pairs of the new vertices are exactly the
descending directed edges of the polygon. -/
theorem newKeys2_pairs_mem_iff (poly : Polygon) (P : Plane2) (a b : ℕ) :
    (a, b) ∈ (newKeys2 poly P).map (fun k => (k.1, k.2.1)) ↔
      liveV poly a = true ∧ liveV poly b = true ∧
        (b = nxt poly a ∨ b = prv poly a) ∧
        0 < dOf poly P a ∧ dOf poly P b < 0 := by
  rw [newKeys2_pairs_eq]
  simp only [List.mem_append, List.mem_map]
  constructor
  · rintro (⟨x, hx, hab⟩ | ⟨x, hx, hab⟩)
    · obtain ⟨h1, h2⟩ := Prod.mk.inj hab
      subst h1
      subst h2
      have h := (mem_descList2 poly P x).mp hx
      exact ⟨h.1, h.2.1, Or.inl rfl, h.2.2.1, h.2.2.2⟩
    · obtain ⟨h1, h2⟩ := Prod.mk.inj hab
      subst h1
      subst h2
      have h := (mem_ascList2 poly P x).mp hx
      exact ⟨h.1, h.2.1, Or.inr rfl, h.2.2.1, h.2.2.2⟩
  · rintro ⟨h1, h2, (rfl | rfl), h4, h5⟩
    · exact Or.inl ⟨a, (mem_descList2 poly P a).mpr ⟨h1, h2, h4, h5⟩, rfl⟩
    · exact Or.inr ⟨a, (mem_ascList2 poly P a).mpr ⟨h1, h2, h4, h5⟩, rfl⟩

/-- The 3D key list holds exactly the descending directed edges. -/
theorem mem_descKeys3 (poly : Polyhedron) (P : Plane3) (a b : ℕ) :
    (a, b) ∈ descKeys3 poly P ↔
      liveV3 poly a = true ∧ liveV3 poly b = true ∧
        b ∈ (vAt3 poly a).neighbors ∧
        0 < dOf3 poly P a ∧ dOf3 poly P b < 0 := by
  simp only [descKeys3, List.mem_flatMap, List.mem_map, List.mem_range, List.mem_filter,
    Bool.and_eq_true, decide_eq_true_eq]
  constructor
  · rintro ⟨x, _, y, ⟨hy, ⟨⟨h1, h2⟩, h3⟩, h4⟩, hab⟩
    obtain ⟨hxa, hyb⟩ := Prod.mk.inj hab
    subst hxa
    subst hyb
    exact ⟨h1, h3, hy, h2, h4⟩
  · rintro ⟨h1, h2, h3, h4, h5⟩
    exact ⟨a, ((liveV3_eq_true_iff poly a).mp h1).1, b, ⟨h3, ⟨⟨h1, h4⟩, h2⟩, h5⟩, rfl⟩

/-- With duplicate-free neighbor lists, the 3D key list is
duplicate-free: one new vertex per descending directed edge. -/
theorem descKeys3_nodup (poly : Polyhedron) (P : Plane3)
    (hn : ∀ a, a < poly.length → (vAt3 poly a).neighbors.Nodup) :
    (descKeys3 poly P).Nodup := by
  unfold descKeys3
  rw [List.nodup_flatMap]
  constructor
  · intro a ha
    refine List.Nodup.map ?_ (List.Nodup.filter _ (hn a (List.mem_range.mp ha)))
    intro x y hxy
    exact (Prod.mk.inj hxy).2
  · refine (List.pairwise_lt_range _).imp ?_
    intro a a' hlt x hx hx'
    simp only [Function.comp, List.mem_map] at hx hx'
    obtain ⟨b, _, rfl⟩ := hx
    obtain ⟨b', _, h⟩ := hx'
    exact absurd (Prod.mk.inj h).1.symm (Nat.ne_of_lt hlt)

/-- C3: during a single-plane clip that actually cuts (some live vertex
strictly above and some strictly below), exactly one new vertex is
created per descending directed edge a to b (comp(a) = 1, comp(b) = -1):
the new vertices are generated by a duplicate-free key list whose pairs
are exactly the descending directed edges, and each new vertex carries
position a.pos + t (b.pos - a.pos) with t = d_a / (d_a - d_b) strictly
between 0 and 1, comp 1, scratch ID -1 and clips the union of the
endpoint clip sets plus the plane ID; consequently every live vertex
appended by the clip contains the plane ID in its clips set. -/
theorem clip_new_vertex_per_descending_edge :
    (∀ (poly : Polygon) (P : Plane2),
      (∀ a, a < poly.length → liveV poly a = true → prv poly a ≠ nxt poly a) →
      (∃ i, liveV poly i = true ∧ dOf poly P i < 0) →
      (∃ i, liveV poly i = true ∧ 0 < dOf poly P i) →
      (clipPolygon poly [P] =
          ((List.range poly.length).map (oldT2 poly P)) ++
            (newKeys2 poly P).map (mkNew2 poly P)) ∧
      (clipPolygon poly [P]).length = poly.length + (newKeys2 poly P).length ∧
      ((newKeys2 poly P).map (fun k => (k.1, k.2.1))).Nodup ∧
      (∀ a b, (a, b) ∈ (newKeys2 poly P).map (fun k => (k.1, k.2.1)) ↔
        liveV poly a = true ∧ liveV poly b = true ∧
          (b = nxt poly a ∨ b = prv poly a) ∧
          0 < dOf poly P a ∧ dOf poly P b < 0) ∧
      (∀ k ∈ newKeys2 poly P, ∃ t : ℚ, 0 < t ∧ t < 1 ∧
        t = dOf poly P k.1 / (dOf poly P k.1 - dOf poly P k.2.1) ∧
        (mkNew2 poly P k).position = Vec2.add (vAt poly k.1).position
          (Vec2.smul t (Vec2.sub (vAt poly k.2.1).position (vAt poly k.1).position)) ∧
        (mkNew2 poly P k).comp = 1 ∧ (mkNew2 poly P k).ID = -1 ∧
        (mkNew2 poly P k).clips =
          (vAt poly k.1).clips ∪ (vAt poly k.2.1).clips ∪ {P.ID} ∧
        P.ID ∈ (mkNew2 poly P k).clips) ∧
      (∀ j, poly.length ≤ j → liveV (clipPolygon poly [P]) j = true →
        P.ID ∈ (vAt (clipPolygon poly [P]) j).clips)) ∧
    (∀ (poly : Polyhedron) (P : Plane3),
      (∀ a, a < poly.length → (vAt3 poly a).neighbors.Nodup) →
      (∃ i, liveV3 poly i = true ∧ dOf3 poly P i < 0) →
      (∃ i, liveV3 poly i = true ∧ 0 < dOf3 poly P i) →
      (clipPolyhedron poly [P] =
          ((List.range poly.length).map (oldT3 poly P)) ++
            (descKeys3 poly P).map (mkNew3 poly P)) ∧
      (clipPolyhedron poly [P]).length = poly.length + (descKeys3 poly P).length ∧
      (descKeys3 poly P).Nodup ∧
      (∀ a b, (a, b) ∈ descKeys3 poly P ↔
        liveV3 poly a = true ∧ liveV3 poly b = true ∧
          b ∈ (vAt3 poly a).neighbors ∧
          0 < dOf3 poly P a ∧ dOf3 poly P b < 0) ∧
      (∀ k ∈ descKeys3 poly P, ∃ t : ℚ, 0 < t ∧ t < 1 ∧
        t = dOf3 poly P k.1 / (dOf3 poly P k.1 - dOf3 poly P k.2) ∧
        (mkNew3 poly P k).position = Vec3.add (vAt3 poly k.1).position
          (Vec3.smul t (Vec3.sub (vAt3 poly k.2).position (vAt3 poly k.1).position)) ∧
        (mkNew3 poly P k).comp = 1 ∧ (mkNew3 poly P k).ID = -1 ∧
        (mkNew3 poly P k).clips =
          (vAt3 poly k.1).clips ∪ (vAt3 poly k.2).clips ∪ {P.ID} ∧
        P.ID ∈ (mkNew3 poly P k).clips) ∧
      (∀ j, poly.length ≤ j → liveV3 (clipPolyhedron poly [P]) j = true →
        P.ID ∈ (vAt3 (clipPolyhedron poly [P]) j).clips)) := by
  constructor
  · intro poly P hd hsb hsa
    obtain ⟨i0, hi0, hi0d⟩ := hsb
    obtain ⟨i1, hi1, hi1d⟩ := hsa
    have hB : (List.range poly.length).any
        (fun i => liveV poly i && decide (dOf poly P i < 0)) = true :=
      List.any_eq_true.mpr ⟨i0,
        List.mem_range.mpr ((liveV_eq_true_iff poly i0).mp hi0).1, by simp [hi0, hi0d]⟩
    have hA : (List.range poly.length).any
        (fun i => liveV poly i && decide (0 < dOf poly P i)) = true :=
      List.any_eq_true.mpr ⟨i1,
        List.mem_range.mpr ((liveV_eq_true_iff poly i1).mp hi1).1, by simp [hi1, hi1d]⟩
    have hc0 : clipPolygon poly [P] =
        ((List.range poly.length).map (oldT2 poly P)) ++
          (newKeys2 poly P).map (mkNew2 poly P) := by
      show clipPlane2 poly P = _
      exact clipPlane2_general poly P hB hA
    refine ⟨hc0, by rw [hc0]; simp, newKeys2_pairs_nodup poly P hd,
      newKeys2_pairs_mem_iff poly P, ?_, ?_⟩
    · intro k hk
      obtain ⟨h1, h2⟩ := newKeys2_signs poly P k hk
      refine ⟨dOf poly P k.1 / (dOf poly P k.1 - dOf poly P k.2.1),
        div_pos h1 (by linarith), (div_lt_one (by linarith)).mpr (by linarith),
        rfl, ?_, rfl, rfl, rfl, by simp [mkNew2]⟩
      simp only [mkNew2, interp2]
    · intro j hj hlive
      rw [hc0] at hlive ⊢
      set base := (List.range poly.length).map (oldT2 poly P) with hbase
      set news := (newKeys2 poly P).map (mkNew2 poly P) with hnews
      have hblen : base.length = poly.length := by simp [hbase]
      have hjlen : j < base.length + news.length := by
        have := ((liveV_eq_true_iff _ j).mp hlive).1
        simpa using this
      have hva : vAt (base ++ news) j = vAt news (j - base.length) :=
        vAt_append_of_ge _ _ j (by omega)
      have hjnews : j - base.length < news.length := by omega
      have hk : j - base.length < (newKeys2 poly P).length := by
        rw [hnews] at hjnews
        simpa using hjnews
      have hva2 : vAt news (j - base.length) =
          mkNew2 poly P ((newKeys2 poly P)[j - base.length]) := by
        rw [hnews, vAt_eq_getElem _ _ (by simpa using hk), List.getElem_map]
      rw [hva, hva2]
      simp [mkNew2]
  · intro poly P hn hsb hsa
    obtain ⟨i0, hi0, hi0d⟩ := hsb
    obtain ⟨i1, hi1, hi1d⟩ := hsa
    have hB : (List.range poly.length).any
        (fun i => liveV3 poly i && decide (dOf3 poly P i < 0)) = true :=
      List.any_eq_true.mpr ⟨i0,
        List.mem_range.mpr ((liveV3_eq_true_iff poly i0).mp hi0).1, by simp [hi0, hi0d]⟩
    have hA : (List.range poly.length).any
        (fun i => liveV3 poly i && decide (0 < dOf3 poly P i)) = true :=
      List.any_eq_true.mpr ⟨i1,
        List.mem_range.mpr ((liveV3_eq_true_iff poly i1).mp hi1).1, by simp [hi1, hi1d]⟩
    have hc0 : clipPolyhedron poly [P] =
        ((List.range poly.length).map (oldT3 poly P)) ++
          (descKeys3 poly P).map (mkNew3 poly P) := by
      show clipPlane3 poly P = _
      exact clipPlane3_general poly P hB hA
    refine ⟨hc0, by rw [hc0]; simp, descKeys3_nodup poly P hn,
      mem_descKeys3 poly P, ?_, ?_⟩
    · intro k hk
      obtain ⟨h1, h2⟩ := descKeys3_signs poly P k hk
      refine ⟨dOf3 poly P k.1 / (dOf3 poly P k.1 - dOf3 poly P k.2),
        div_pos h1 (by linarith), (div_lt_one (by linarith)).mpr (by linarith),
        rfl, ?_, rfl, rfl, rfl, by simp [mkNew3]⟩
      simp only [mkNew3, interp3]
    · intro j hj hlive
      rw [hc0] at hlive ⊢
      set base := (List.range poly.length).map (oldT3 poly P) with hbase
      set news := (descKeys3 poly P).map (mkNew3 poly P) with hnews
      have hblen : base.length = poly.length := by simp [hbase]
      have hjlen : j < base.length + news.length := by
        have := ((liveV3_eq_true_iff _ j).mp hlive).1
        simpa using this
      have hva : vAt3 (base ++ news) j = vAt3 news (j - base.length) :=
        vAt3_append_of_ge _ _ j (by omega)
      have hjnews : j - base.length < news.length := by omega
      have hk : j - base.length < (descKeys3 poly P).length := by
        rw [hnews] at hjnews
        simpa using hjnews
      have hva2 : vAt3 news (j - base.length) =
          mkNew3 poly P ((descKeys3 poly P)[j - base.length]) := by
        rw [hnews, vAt3_eq_getElem _ _ (by simpa using hk), List.getElem_map]
      rw [hva, hva2]
      simp [mkNew3]

/-- Witness for C3: clipping the unit square by x at least 1/2, the
descending next-edge 2 to 3 generates a new vertex key and the output
has one slot per key beyond the original four; for the tetrahedron cut
by the same half space, the descending edge 1 to 0 is a key. -/
theorem clip_new_vertex_per_descending_edge_witness :
    (2, 3) ∈ (newKeys2 unitSquare planeXhalf).map (fun k => (k.1, k.2.1)) ∧
    (clipPolygon unitSquare [planeXhalf]).length =
      unitSquare.length + (newKeys2 unitSquare planeXhalf).length ∧
    (1, 0) ∈ descKeys3 unitTet plane3Xhalf := by
  have h2d := clip_new_vertex_per_descending_edge.1 unitSquare planeXhalf
    (by decide)
    ⟨0, by decide, by norm_num [dOf, Plane2.compare, Vec2.dot, vAt, unitSquare, planeXhalf]⟩
    ⟨1, by decide, by norm_num [dOf, Plane2.compare, Vec2.dot, vAt, unitSquare, planeXhalf]⟩
  have h3d := clip_new_vertex_per_descending_edge.2 unitTet plane3Xhalf
    (by decide)
    ⟨0, by decide, by norm_num [dOf3, Plane3.compare, Vec3.dot, vAt3, unitTet, plane3Xhalf]⟩
    ⟨1, by decide, by norm_num [dOf3, Plane3.compare, Vec3.dot, vAt3, unitTet, plane3Xhalf]⟩
  refine ⟨?_, h2d.2.1, ?_⟩
  · exact (h2d.2.2.2.1 2 3).mpr ⟨by decide, by decide, Or.inl (by decide),
      by norm_num [dOf, Plane2.compare, Vec2.dot, vAt, unitSquare, planeXhalf],
      by norm_num [dOf, Plane2.compare, Vec2.dot, vAt, unitSquare, planeXhalf]⟩
  · exact (h3d.2.2.2.1 1 0).mpr ⟨by decide, by decide, by decide,
      by norm_num [dOf3, Plane3.compare, Vec3.dot, vAt3, unitTet, plane3Xhalf],
      by norm_num [dOf3, Plane3.compare, Vec3.dot, vAt3, unitTet, plane3Xhalf]⟩

/-! ## Dead-chain walk machinery for the 2D manifold invariant -/

/-- The bounded walk stops at the first index whose classification is
not -1, provided one occurs within the fuel. -/
theorem walkGen_eq (f : ℕ → ℕ) (vc : ℕ → ℤ) :
    ∀ (fuel K s : ℕ), K < fuel →
    (∀ m, m < K → vc (f^[m] s) = -1) → vc (f^[K] s) ≠ -1 →
    walkGen f vc fuel s = f^[K] s := by
  intro fuel
  induction fuel with
  | zero => intro K s hK; omega
  | succ fuel ih =>
    intro K s hK hdead hlive
    by_cases hs : vc s = -1
    · have hK0 : K ≠ 0 := by
        intro h
        rw [h] at hlive
        exact hlive (by simpa using hs)
      have hstep : walkGen f vc (fuel + 1) s = walkGen f vc fuel (f s) := by
        simp [walkGen, hs]
      rw [hstep]
      have h1 : K - 1 < fuel := by omega
      have h2 : ∀ m, m < K - 1 → vc (f^[m] (f s)) = -1 := by
        intro m hm
        have := hdead (m + 1) (by omega)
        rwa [Function.iterate_succ_apply] at this
      have h3 : vc (f^[K - 1] (f s)) ≠ -1 := by
        have : f^[K - 1] (f s) = f^[K] s := by
          rw [← Function.iterate_succ_apply]
          congr 1
          omega
        rwa [this]
      rw [ih (K - 1) (f s) h1 h2 h3, ← Function.iterate_succ_apply]
      congr 1
      omega
    · have hK0 : K = 0 := by
        by_contra h
        exact hs (hdead 0 (by omega))
      simp [walkGen, hs, hK0]

/-- Iterating a step that preserves a set stays in the set. -/
theorem walk_iterate_mem (L : ℕ → Prop) (f : ℕ → ℕ)
    (hclf : ∀ i, L i → L (f i)) (u : ℕ) (hu : L u) :
    ∀ m, L (f^[m] u) := by
  intro m
  induction m with
  | zero => exact hu
  | succ m ih =>
    rw [Function.iterate_succ_apply']
    exact hclf _ ih

/-- A step with a left inverse on a set is injective on iterates within
the set. -/
theorem walk_iterate_cancel (L : ℕ → Prop) (f g : ℕ → ℕ)
    (hclf : ∀ i, L i → L (f i)) (hgf : ∀ i, L i → g (f i) = i)
    {a b : ℕ} (ha : L a) (hb : L b) :
    ∀ k, f^[k] a = f^[k] b → a = b := by
  intro k
  induction k generalizing a b with
  | zero => exact fun h => h
  | succ k ih =>
    intro h
    rw [Function.iterate_succ_apply, Function.iterate_succ_apply] at h
    have := ih (hclf a ha) (hclf b hb) h
    calc a = g (f a) := (hgf a ha).symm
    _ = g (f b) := by rw [this]
    _ = b := hgf b hb

/-- On a finite set with an invertible step, the orbit of any member
returns to it within the size bound. -/
theorem walk_orbit_return (n : ℕ) (L : ℕ → Prop) (f g : ℕ → ℕ)
    (hfin : ∀ i, L i → i < n) (hclf : ∀ i, L i → L (f i))
    (hgf : ∀ i, L i → g (f i) = i) (u : ℕ) (hu : L u) :
    ∃ m, 1 ≤ m ∧ m ≤ n ∧ f^[m] u = u := by
  have hmem : ∀ m, L (f^[m] u) := walk_iterate_mem L f hclf u hu
  have hcard : Fintype.card (Fin n) < Fintype.card (Fin (n + 1)) := by simp
  obtain ⟨k1, k2, hne, heq⟩ := Fintype.exists_ne_map_eq_of_card_lt
    (fun k : Fin (n + 1) => (⟨f^[k.val] u, hfin _ (hmem k.val)⟩ : Fin n)) hcard
  have hval : f^[k1.val] u = f^[k2.val] u := congrArg Fin.val heq
  rcases Nat.lt_or_ge k1.val k2.val with hlt | hge
  · refine ⟨k2.val - k1.val, by omega, by have := k2.isLt; omega, ?_⟩
    have hsplit : f^[k2.val] u = f^[k1.val] (f^[k2.val - k1.val] u) := by
      rw [← Function.iterate_add_apply]
      congr 1
      omega
    rw [hsplit] at hval
    exact (walk_iterate_cancel L f g hclf hgf hu (hmem _) k1.val hval).symm
  · have hlt2 : k2.val < k1.val := by
      rcases Nat.lt_or_ge k2.val k1.val with h | h
      · exact h
      · exact absurd (Fin.ext (by omega)) hne
    refine ⟨k1.val - k2.val, by omega, by have := k1.isLt; omega, ?_⟩
    have hsplit : f^[k1.val] u = f^[k2.val] (f^[k1.val - k2.val] u) := by
      rw [← Function.iterate_add_apply]
      congr 1
      omega
    rw [hsplit] at hval
    exact (walk_iterate_cancel L f g hclf hgf hu (hmem _) k2.val hval.symm).symm

/-- From a live member, the forward chain reaches a non-removed index
within the size bound: the first one exists. -/
theorem walk_first_live (n : ℕ) (L : ℕ → Prop) (f g : ℕ → ℕ) (vc : ℕ → ℤ)
    (hfin : ∀ i, L i → i < n) (hclf : ∀ i, L i → L (f i))
    (hgf : ∀ i, L i → g (f i) = i) (u : ℕ) (hu : L u) (hvcu : vc u ≠ -1) :
    ∃ K, K < n ∧ (∀ m, m < K → vc (f^[m] (f u)) = -1) ∧ vc (f^[K] (f u)) ≠ -1 := by
  obtain ⟨m, hm1, hmn, hmu⟩ := walk_orbit_return n L f g hfin hclf hgf u hu
  have hwit : vc (f^[m - 1] (f u)) ≠ -1 := by
    have : f^[m - 1] (f u) = f^[m] u := by
      rw [← Function.iterate_succ_apply]
      congr 1
      omega
    rw [this, hmu]
    exact hvcu
  have hex : ∃ k, vc (f^[k] (f u)) ≠ -1 := ⟨m - 1, hwit⟩
  refine ⟨Nat.find hex, ?_, ?_, Nat.find_spec hex⟩
  · have : Nat.find hex ≤ m - 1 := Nat.find_le hwit
    omega
  · intro k hk
    have := Nat.find_min hex hk
    by_contra hne
    exact this hne

/-- The splice pairing: walking forward through the dead chain from a
kept vertex u reaches a kept vertex v, and walking backward through the
same chain from just before v returns exactly to u. -/
theorem walk_pair (n : ℕ) (L : ℕ → Prop) (f g : ℕ → ℕ) (vc : ℕ → ℤ)
    (hfin : ∀ i, L i → i < n) (hclf : ∀ i, L i → L (f i))
    (hgf : ∀ i, L i → g (f i) = i)
    (u : ℕ) (hu : L u) (hvcu : vc u ≠ -1) (hdeadu : vc (f u) = -1) :
    vc (walkGen f vc n (f u)) ≠ -1 ∧ L (walkGen f vc n (f u)) ∧
      vc (g (walkGen f vc n (f u))) = -1 ∧
      walkGen g vc n (g (walkGen f vc n (f u))) = u := by
  obtain ⟨K, hKn, hdead, hlive⟩ :=
    walk_first_live n L f g vc hfin hclf hgf u hu hvcu
  have hK1 : 1 ≤ K := by
    rcases Nat.eq_zero_or_pos K with h | h
    · rw [h] at hlive
      exact absurd (by simpa using hdeadu) hlive
    · exact h
  have hchainL : ∀ m, L (f^[m] (f u)) :=
    walk_iterate_mem L f hclf (f u) (hclf u hu)
  have hv : walkGen f vc n (f u) = f^[K] (f u) :=
    walkGen_eq f vc n K (f u) hKn hdead hlive
  have hsucc : ∀ m, 1 ≤ m → f^[m] (f u) = f (f^[m - 1] (f u)) := by
    intro m hm
    conv =>
      lhs
      rw [show m = (m - 1) + 1 by omega]
    rw [Function.iterate_succ_apply']
  have hgv : g (f^[K] (f u)) = f^[K - 1] (f u) := by
    rw [hsucc K hK1]
    exact hgf _ (hchainL (K - 1))
  have hback : ∀ m, m ≤ K - 1 → g^[m] (f^[K - 1] (f u)) = f^[K - 1 - m] (f u) := by
    intro m
    induction m with
    | zero => intro _; rfl
    | succ m ih =>
      intro hm
      rw [Function.iterate_succ_apply', ih (by omega)]
      have h1 : 1 ≤ K - 1 - m := by omega
      rw [hsucc (K - 1 - m) h1, hgf _ (hchainL (K - 1 - m - 1))]
      congr 1
  have hgK : g^[K] (f^[K - 1] (f u)) = u := by
    have h2 : g^[K] (f^[K - 1] (f u)) = g^[1] (g^[K - 1] (f^[K - 1] (f u))) := by
      rw [← Function.iterate_add_apply]
      congr 1
      omega
    rw [h2, hback (K - 1) (le_refl _)]
    have h0 : K - 1 - (K - 1) = 0 := by omega
    rw [h0]
    show g (f u) = u
    exact hgf u hu
  refine ⟨by rw [hv]; exact hlive, by rw [hv]; exact hchainL K, ?_, ?_⟩
  · rw [hv, hgv]
    exact hdead (K - 1) (by omega)
  · rw [hv, hgv]
    rw [walkGen_eq g vc n K (f^[K - 1] (f u)) hKn ?_ ?_]
    · exact hgK
    · intro m hm
      rw [hback m (by omega)]
      exact hdead (K - 1 - m) (by omega)
    · rw [hgK]
      exact hvcu

theorem vcomp2_cases (poly : Polygon) (P : Plane2) (i : ℕ) :
    vcomp2 poly P i = -1 ∨ vcomp2 poly P i = 0 ∨ vcomp2 poly P i = 1 := by
  unfold vcomp2 sgnQ
  split_ifs <;> simp

theorem vcomp2_live (poly : Polygon) (P : Plane2) (i : ℕ)
    (h : vcomp2 poly P i ≠ -1) : liveV poly i = true := by
  by_contra hl
  have hfl : liveV poly i = false := by
    cases hh : liveV poly i
    · rfl
    · exact absurd hh hl
  simp [vcomp2, hfl] at h

theorem vcomp2_eq_one_iff (poly : Polygon) (P : Plane2) (i : ℕ) :
    vcomp2 poly P i = 1 ↔ liveV poly i = true ∧ 0 < dOf poly P i := by
  constructor
  · intro h
    have hl := vcomp2_live poly P i (by rw [h]; decide)
    refine ⟨hl, ?_⟩
    simp only [vcomp2, hl, if_pos, sgnQ] at h
    by_contra hd
    split_ifs at h <;> omega
  · rintro ⟨hl, hd⟩
    simp [vcomp2, hl, sgnQ, hd]

theorem vcomp2_eq_negone_of_live (poly : Polygon) (P : Plane2) (i : ℕ)
    (hl : liveV poly i = true) :
    (vcomp2 poly P i = -1 ↔ dOf poly P i < 0) := by
  constructor
  · intro h
    simp only [vcomp2, hl, if_pos, sgnQ] at h
    by_contra hd
    split_ifs at h <;> omega
  · intro hd
    have hd2 : ¬ 0 < dOf poly P i := by linarith
    simp [vcomp2, hl, sgnQ, hd, hd2]

theorem oldT2_comp (poly : Polygon) (P : Plane2) (i : ℕ) :
    (oldT2 poly P i).comp = if vcomp2 poly P i = -1 then -1 else vcomp2 poly P i := by
  unfold oldT2
  by_cases h : vcomp2 poly P i = -1
  · rw [if_pos h, if_pos h]
  · rw [if_neg h, if_neg h]

theorem oldT2_position (poly : Polygon) (P : Plane2) (i : ℕ) :
    (oldT2 poly P i).position = (vAt poly i).position := by
  unfold oldT2
  split_ifs <;> rfl

theorem oldT2_next (poly : Polygon) (P : Plane2) (i : ℕ)
    (hi : vcomp2 poly P i ≠ -1) :
    (oldT2 poly P i).next =
      (if vcomp2 poly P (nxt poly i) ≠ -1 then nxt poly i
        else if vcomp2 poly P i = 1 then outIdx2 poly P i
        else exitNode2 poly P (nxt poly i)) := by
  unfold oldT2
  rw [if_neg hi]
  exact rfl

theorem oldT2_prev (poly : Polygon) (P : Plane2) (i : ℕ)
    (hi : vcomp2 poly P i ≠ -1) :
    (oldT2 poly P i).prev =
      (if vcomp2 poly P (prv poly i) ≠ -1 then prv poly i
        else if vcomp2 poly P i = 1 then inIdx2 poly P i
        else entryNode2 poly P (prv poly i)) := by
  unfold oldT2
  rw [if_neg hi]
  exact rfl

theorem newKeys2_length (poly : Polygon) (P : Plane2) :
    (newKeys2 poly P).length = (descList2 poly P).length + (ascList2 poly P).length := by
  simp [newKeys2]

theorem outIdx2_bounds (poly : Polygon) (P : Plane2) (a : ℕ)
    (ha : a ∈ descList2 poly P) :
    poly.length ≤ outIdx2 poly P a ∧
      outIdx2 poly P a < poly.length + (newKeys2 poly P).length := by
  have h := List.indexOf_lt_length.mpr ha
  unfold outIdx2
  rw [newKeys2_length]
  omega

theorem inIdx2_bounds (poly : Polygon) (P : Plane2) (c : ℕ)
    (hc : c ∈ ascList2 poly P) :
    poly.length ≤ inIdx2 poly P c ∧
      inIdx2 poly P c < poly.length + (newKeys2 poly P).length := by
  have h := List.indexOf_lt_length.mpr hc
  unfold inIdx2
  rw [newKeys2_length]
  omega

theorem newKeys2_getElem_left (poly : Polygon) (P : Plane2) (a : ℕ)
    (ha : a ∈ descList2 poly P)
    (hb : (descList2 poly P).indexOf a < (newKeys2 poly P).length) :
    (newKeys2 poly P)[(descList2 poly P).indexOf a] = (a, nxt poly a, true) := by
  have h := List.indexOf_lt_length.mpr ha
  unfold newKeys2
  rw [List.getElem_append_left (by simpa using h), List.getElem_map,
    List.getElem_indexOf h]

theorem newKeys2_getElem_right (poly : Polygon) (P : Plane2) (c : ℕ)
    (hc : c ∈ ascList2 poly P)
    (hb : (descList2 poly P).length + (ascList2 poly P).indexOf c <
      (newKeys2 poly P).length) :
    (newKeys2 poly P)[(descList2 poly P).length + (ascList2 poly P).indexOf c]
      = (c, prv poly c, false) := by
  have h := List.indexOf_lt_length.mpr hc
  unfold newKeys2
  rw [List.getElem_append_right (by simpa using Nat.le_add_right _ _)]
  simp only [List.length_map, Nat.add_sub_cancel_left]
  rw [List.getElem_map, List.getElem_indexOf h]

theorem mem_descList2_vc (poly : Polygon) (P : Plane2) (a : ℕ) :
    a ∈ descList2 poly P ↔
      vcomp2 poly P a = 1 ∧ liveV poly (nxt poly a) = true ∧
        vcomp2 poly P (nxt poly a) = -1 := by
  rw [mem_descList2, vcomp2_eq_one_iff]
  constructor
  · rintro ⟨h1, h2, h3, h4⟩
    exact ⟨⟨h1, h3⟩, h2, (vcomp2_eq_negone_of_live poly P _ h2).mpr h4⟩
  · rintro ⟨⟨h1, h3⟩, h2, h4⟩
    exact ⟨h1, h2, h3, (vcomp2_eq_negone_of_live poly P _ h2).mp h4⟩

theorem mem_ascList2_vc (poly : Polygon) (P : Plane2) (c : ℕ) :
    c ∈ ascList2 poly P ↔
      vcomp2 poly P c = 1 ∧ liveV poly (prv poly c) = true ∧
        vcomp2 poly P (prv poly c) = -1 := by
  rw [mem_ascList2, vcomp2_eq_one_iff]
  constructor
  · rintro ⟨h1, h2, h3, h4⟩
    exact ⟨⟨h1, h3⟩, h2, (vcomp2_eq_negone_of_live poly P _ h2).mpr h4⟩
  · rintro ⟨⟨h1, h3⟩, h2, h4⟩
    exact ⟨h1, h2, h3, (vcomp2_eq_negone_of_live poly P _ h2).mp h4⟩

theorem clip2_length (poly : Polygon) (P : Plane2)
    (hB : (List.range poly.length).any
      (fun i => liveV poly i && decide (dOf poly P i < 0)) = true)
    (hA : (List.range poly.length).any
      (fun i => liveV poly i && decide (0 < dOf poly P i)) = true) :
    (clipPlane2 poly P).length = poly.length + (newKeys2 poly P).length := by
  rw [clipPlane2_general poly P hB hA]
  simp

theorem vAt_clip2_lt (poly : Polygon) (P : Plane2)
    (hB : (List.range poly.length).any
      (fun i => liveV poly i && decide (dOf poly P i < 0)) = true)
    (hA : (List.range poly.length).any
      (fun i => liveV poly i && decide (0 < dOf poly P i)) = true)
    (j : ℕ) (hj : j < poly.length) :
    vAt (clipPlane2 poly P) j = oldT2 poly P j := by
  rw [clipPlane2_general poly P hB hA,
    vAt_append_of_lt _ _ j (by simpa using hj), vAt_map_range _ _ j hj]

theorem vAt_clip2_outIdx (poly : Polygon) (P : Plane2)
    (hB : (List.range poly.length).any
      (fun i => liveV poly i && decide (dOf poly P i < 0)) = true)
    (hA : (List.range poly.length).any
      (fun i => liveV poly i && decide (0 < dOf poly P i)) = true)
    (a : ℕ) (ha : a ∈ descList2 poly P) :
    vAt (clipPlane2 poly P) (outIdx2 poly P a) =
      mkNew2 poly P (a, nxt poly a, true) := by
  have hidx := List.indexOf_lt_length.mpr ha
  have hk : (descList2 poly P).indexOf a < (newKeys2 poly P).length := by
    rw [newKeys2_length]
    omega
  rw [clipPlane2_general poly P hB hA]
  rw [show outIdx2 poly P a =
    ((List.range poly.length).map (oldT2 poly P)).length + (descList2 poly P).indexOf a
    by simp [outIdx2]]
  rw [vAt_append_of_ge _ _ _ (Nat.le_add_right _ _), Nat.add_sub_cancel_left]
  rw [vAt_eq_getElem _ _ (by simpa using hk), List.getElem_map,
    newKeys2_getElem_left poly P a ha hk]

theorem vAt_clip2_inIdx (poly : Polygon) (P : Plane2)
    (hB : (List.range poly.length).any
      (fun i => liveV poly i && decide (dOf poly P i < 0)) = true)
    (hA : (List.range poly.length).any
      (fun i => liveV poly i && decide (0 < dOf poly P i)) = true)
    (c : ℕ) (hc : c ∈ ascList2 poly P) :
    vAt (clipPlane2 poly P) (inIdx2 poly P c) =
      mkNew2 poly P (c, prv poly c, false) := by
  have hidx := List.indexOf_lt_length.mpr hc
  have hk : (descList2 poly P).length + (ascList2 poly P).indexOf c <
      (newKeys2 poly P).length := by
    rw [newKeys2_length]
    omega
  rw [clipPlane2_general poly P hB hA]
  rw [show inIdx2 poly P c =
    ((List.range poly.length).map (oldT2 poly P)).length +
      ((descList2 poly P).length + (ascList2 poly P).indexOf c)
    by simp [inIdx2]; omega]
  rw [vAt_append_of_ge _ _ _ (Nat.le_add_right _ _), Nat.add_sub_cancel_left]
  rw [vAt_eq_getElem _ _ (by simpa using hk), List.getElem_map,
    newKeys2_getElem_right poly P c hc hk]

theorem liveV_clip2_lt (poly : Polygon) (P : Plane2)
    (hB : (List.range poly.length).any
      (fun i => liveV poly i && decide (dOf poly P i < 0)) = true)
    (hA : (List.range poly.length).any
      (fun i => liveV poly i && decide (0 < dOf poly P i)) = true)
    (j : ℕ) (hj : j < poly.length) :
    liveV (clipPlane2 poly P) j = true ↔ vcomp2 poly P j ≠ -1 := by
  rw [liveV_eq_true_iff, vAt_clip2_lt poly P hB hA j hj, oldT2_comp,
    clip2_length poly P hB hA]
  constructor
  · rintro ⟨-, h2⟩
    intro hc
    rw [if_pos hc] at h2
    omega
  · intro h
    rw [if_neg h]
    refine ⟨by omega, ?_⟩
    rcases vcomp2_cases poly P j with hc | hc | hc
    · exact absurd hc h
    · omega
    · omega

theorem liveV_clip2_ge (poly : Polygon) (P : Plane2)
    (hB : (List.range poly.length).any
      (fun i => liveV poly i && decide (dOf poly P i < 0)) = true)
    (hA : (List.range poly.length).any
      (fun i => liveV poly i && decide (0 < dOf poly P i)) = true)
    (j : ℕ) (hj : poly.length ≤ j) :
    liveV (clipPlane2 poly P) j = true ↔
      j < poly.length + (newKeys2 poly P).length := by
  constructor
  · intro h
    have := ((liveV_eq_true_iff _ j).mp h).1
    rwa [clip2_length poly P hB hA] at this
  · intro h
    rw [liveV_eq_true_iff, clip2_length poly P hB hA]
    refine ⟨h, ?_⟩
    rw [clipPlane2_general poly P hB hA,
      vAt_append_of_ge _ _ j (by simpa using hj)]
    have hlt : j - ((List.range poly.length).map (oldT2 poly P)).length <
        ((newKeys2 poly P).map (mkNew2 poly P)).length := by
      simp only [List.length_map, List.length_range]
      omega
    rw [vAt_eq_getElem _ _ hlt, List.getElem_map]
    exact zero_le_one

theorem exitNode2_eq (poly : Polygon) (P : Plane2) (b : ℕ) :
    exitNode2 poly P b =
      (if vcomp2 poly P (walkGen (nxt poly) (vcomp2 poly P) poly.length b) = 1
        then inIdx2 poly P (walkGen (nxt poly) (vcomp2 poly P) poly.length b)
        else walkGen (nxt poly) (vcomp2 poly P) poly.length b) := rfl

theorem entryNode2_eq (poly : Polygon) (P : Plane2) (b : ℕ) :
    entryNode2 poly P b =
      (if vcomp2 poly P (walkGen (prv poly) (vcomp2 poly P) poly.length b) = 1
        then outIdx2 poly P (walkGen (prv poly) (vcomp2 poly P) poly.length b)
        else walkGen (prv poly) (vcomp2 poly P) poly.length b) := rfl

theorem mkNew2_prev_true (poly : Polygon) (P : Plane2) (a b : ℕ) :
    (mkNew2 poly P (a, b, true)).prev = a := rfl

theorem mkNew2_next_true (poly : Polygon) (P : Plane2) (a b : ℕ) :
    (mkNew2 poly P (a, b, true)).next = exitNode2 poly P b := rfl

theorem mkNew2_prev_false (poly : Polygon) (P : Plane2) (c b : ℕ) :
    (mkNew2 poly P (c, b, false)).prev = entryNode2 poly P b := rfl

theorem mkNew2_next_false (poly : Polygon) (P : Plane2) (c b : ℕ) :
    (mkNew2 poly P (c, b, false)).next = c := rfl

/-- Every new-vertex slot of the general clip pass is the out-vertex of
a descending edge or the in-vertex of an ascending edge. -/
theorem clip2_new_cases (poly : Polygon) (P : Plane2) (x : ℕ)
    (hge : poly.length ≤ x) (hlt : x < poly.length + (newKeys2 poly P).length) :
    (∃ a ∈ descList2 poly P, x = outIdx2 poly P a) ∨
      (∃ c ∈ ascList2 poly P, x = inIdx2 poly P c) := by
  have hm : x - poly.length < (descList2 poly P).length + (ascList2 poly P).length := by
    have := newKeys2_length poly P
    omega
  have hnodD : (descList2 poly P).Nodup := (List.nodup_range poly.length).filter _
  have hnodA : (ascList2 poly P).Nodup := (List.nodup_range poly.length).filter _
  by_cases hmD : x - poly.length < (descList2 poly P).length
  · left
    refine ⟨(descList2 poly P)[x - poly.length], List.getElem_mem hmD, ?_⟩
    unfold outIdx2
    rw [List.indexOf_getElem hnodD _ hmD]
    omega
  · right
    have hmA : x - poly.length - (descList2 poly P).length <
        (ascList2 poly P).length := by omega
    refine ⟨(ascList2 poly P)[x - poly.length - (descList2 poly P).length],
      List.getElem_mem hmA, ?_⟩
    unfold inIdx2
    rw [List.indexOf_getElem hnodA _ hmA]
    omega

/-- Forward splice pairing: the node following a dead chain is live in
the clipped polygon, and its prev pointer comes back to the chain's
entry (the origin vertex itself when on the plane, its out-vertex when
strictly above). -/
theorem clip2_exit_pair (poly : Polygon) (P : Plane2)
    (hinv : ∀ i, liveV poly i = true → liveV poly (nxt poly i) = true ∧
      liveV poly (prv poly i) = true ∧ prv poly (nxt poly i) = i ∧
      nxt poly (prv poly i) = i)
    (hB : (List.range poly.length).any
      (fun i => liveV poly i && decide (dOf poly P i < 0)) = true)
    (hA : (List.range poly.length).any
      (fun i => liveV poly i && decide (0 < dOf poly P i)) = true)
    (u : ℕ) (hu : liveV poly u = true) (hvcu : vcomp2 poly P u ≠ -1)
    (hdu : vcomp2 poly P (nxt poly u) = -1) :
    liveV (clipPlane2 poly P) (exitNode2 poly P (nxt poly u)) = true ∧
      prv (clipPlane2 poly P) (exitNode2 poly P (nxt poly u)) =
        (if vcomp2 poly P u = 1 then outIdx2 poly P u else u) := by
  have hfin : ∀ i, liveV poly i = true → i < poly.length :=
    fun i hi => ((liveV_eq_true_iff poly i).mp hi).1
  have hclf : ∀ i, liveV poly i = true → liveV poly (nxt poly i) = true :=
    fun i hi => (hinv i hi).1
  have hclg : ∀ i, liveV poly i = true → liveV poly (prv poly i) = true :=
    fun i hi => (hinv i hi).2.1
  have hgf : ∀ i, liveV poly i = true → prv poly (nxt poly i) = i :=
    fun i hi => (hinv i hi).2.2.1
  obtain ⟨hv1, hv2, hv3, hv4⟩ := walk_pair poly.length
    (fun i => liveV poly i = true) (nxt poly) (prv poly) (vcomp2 poly P)
    hfin hclf hgf u hu hvcu hdu
  rw [exitNode2_eq]
  by_cases hvv : vcomp2 poly P
      (walkGen (nxt poly) (vcomp2 poly P) poly.length (nxt poly u)) = 1
  · rw [if_pos hvv]
    have hvA : walkGen (nxt poly) (vcomp2 poly P) poly.length (nxt poly u) ∈
        ascList2 poly P :=
      (mem_ascList2_vc poly P _).mpr ⟨hvv, hclg _ hv2, hv3⟩
    refine ⟨?_, ?_⟩
    · rw [liveV_clip2_ge poly P hB hA _ (inIdx2_bounds poly P _ hvA).1]
      exact (inIdx2_bounds poly P _ hvA).2
    · rw [prv, vAt_clip2_inIdx poly P hB hA _ hvA, mkNew2_prev_false,
        entryNode2_eq, hv4]
  · rw [if_neg hvv]
    have hvlt : walkGen (nxt poly) (vcomp2 poly P) poly.length (nxt poly u) <
        poly.length := hfin _ hv2
    refine ⟨(liveV_clip2_lt poly P hB hA _ hvlt).mpr hv1, ?_⟩
    rw [prv, vAt_clip2_lt poly P hB hA _ hvlt, oldT2_prev _ _ _ hv1,
      if_neg (fun hc => hc hv3), if_neg hvv, entryNode2_eq, hv4]

/-- Backward splice pairing: the node preceding a dead chain is live in
the clipped polygon, and its next pointer goes forward to the chain's
exit (the origin vertex itself when on the plane, its in-vertex when
strictly above). -/
theorem clip2_entry_pair (poly : Polygon) (P : Plane2)
    (hinv : ∀ i, liveV poly i = true → liveV poly (nxt poly i) = true ∧
      liveV poly (prv poly i) = true ∧ prv poly (nxt poly i) = i ∧
      nxt poly (prv poly i) = i)
    (hB : (List.range poly.length).any
      (fun i => liveV poly i && decide (dOf poly P i < 0)) = true)
    (hA : (List.range poly.length).any
      (fun i => liveV poly i && decide (0 < dOf poly P i)) = true)
    (u : ℕ) (hu : liveV poly u = true) (hvcu : vcomp2 poly P u ≠ -1)
    (hdu : vcomp2 poly P (prv poly u) = -1) :
    liveV (clipPlane2 poly P) (entryNode2 poly P (prv poly u)) = true ∧
      nxt (clipPlane2 poly P) (entryNode2 poly P (prv poly u)) =
        (if vcomp2 poly P u = 1 then inIdx2 poly P u else u) := by
  have hfin : ∀ i, liveV poly i = true → i < poly.length :=
    fun i hi => ((liveV_eq_true_iff poly i).mp hi).1
  have hclf : ∀ i, liveV poly i = true → liveV poly (nxt poly i) = true :=
    fun i hi => (hinv i hi).1
  have hclg : ∀ i, liveV poly i = true → liveV poly (prv poly i) = true :=
    fun i hi => (hinv i hi).2.1
  have hfg : ∀ i, liveV poly i = true → nxt poly (prv poly i) = i :=
    fun i hi => (hinv i hi).2.2.2
  obtain ⟨hw1, hw2, hw3, hw4⟩ := walk_pair poly.length
    (fun i => liveV poly i = true) (prv poly) (nxt poly) (vcomp2 poly P)
    hfin hclg hfg u hu hvcu hdu
  rw [entryNode2_eq]
  by_cases hww : vcomp2 poly P
      (walkGen (prv poly) (vcomp2 poly P) poly.length (prv poly u)) = 1
  · rw [if_pos hww]
    have hwD : walkGen (prv poly) (vcomp2 poly P) poly.length (prv poly u) ∈
        descList2 poly P :=
      (mem_descList2_vc poly P _).mpr ⟨hww, hclf _ hw2, hw3⟩
    refine ⟨?_, ?_⟩
    · rw [liveV_clip2_ge poly P hB hA _ (outIdx2_bounds poly P _ hwD).1]
      exact (outIdx2_bounds poly P _ hwD).2
    · rw [nxt, vAt_clip2_outIdx poly P hB hA _ hwD, mkNew2_next_true,
        exitNode2_eq, hw4]
  · rw [if_neg hww]
    have hwlt : walkGen (prv poly) (vcomp2 poly P) poly.length (prv poly u) <
        poly.length := hfin _ hw2
    refine ⟨(liveV_clip2_lt poly P hB hA _ hwlt).mpr hw1, ?_⟩
    rw [nxt, vAt_clip2_lt poly P hB hA _ hwlt, oldT2_next _ _ _ hw1,
      if_neg (fun hc => hc hw3), if_neg hww, exitNode2_eq, hw4]

/-- After a general 2D clip pass, following next from any live vertex
lands on a live vertex whose prev points back. -/
theorem clip2_succ_pair (poly : Polygon) (P : Plane2)
    (hinv : ∀ i, liveV poly i = true → liveV poly (nxt poly i) = true ∧
      liveV poly (prv poly i) = true ∧ prv poly (nxt poly i) = i ∧
      nxt poly (prv poly i) = i)
    (hB : (List.range poly.length).any
      (fun i => liveV poly i && decide (dOf poly P i < 0)) = true)
    (hA : (List.range poly.length).any
      (fun i => liveV poly i && decide (0 < dOf poly P i)) = true) :
    ∀ x, liveV (clipPlane2 poly P) x = true →
      liveV (clipPlane2 poly P) (nxt (clipPlane2 poly P) x) = true ∧
        prv (clipPlane2 poly P) (nxt (clipPlane2 poly P) x) = x := by
  have hfin : ∀ i, liveV poly i = true → i < poly.length :=
    fun i hi => ((liveV_eq_true_iff poly i).mp hi).1
  have hclf : ∀ i, liveV poly i = true → liveV poly (nxt poly i) = true :=
    fun i hi => (hinv i hi).1
  have hgf : ∀ i, liveV poly i = true → prv poly (nxt poly i) = i :=
    fun i hi => (hinv i hi).2.2.1
  intro x hx
  by_cases hxn : x < poly.length
  · have hvcx := (liveV_clip2_lt poly P hB hA x hxn).mp hx
    have hLx := vcomp2_live poly P x hvcx
    have hnxt : nxt (clipPlane2 poly P) x = (oldT2 poly P x).next := by
      rw [nxt, vAt_clip2_lt poly P hB hA x hxn]
    by_cases hfx : vcomp2 poly P (nxt poly x) = -1
    · by_cases hx1 : vcomp2 poly P x = 1
      · have hnxt2 : nxt (clipPlane2 poly P) x = outIdx2 poly P x := by
          rw [hnxt, oldT2_next _ _ _ hvcx, if_neg (fun hc => hc hfx), if_pos hx1]
        have hxD : x ∈ descList2 poly P :=
          (mem_descList2_vc poly P x).mpr ⟨hx1, hclf x hLx, hfx⟩
        rw [hnxt2]
        refine ⟨?_, ?_⟩
        · rw [liveV_clip2_ge poly P hB hA _ (outIdx2_bounds poly P _ hxD).1]
          exact (outIdx2_bounds poly P _ hxD).2
        · rw [prv, vAt_clip2_outIdx poly P hB hA _ hxD, mkNew2_prev_true]
      · have hnxt2 : nxt (clipPlane2 poly P) x = exitNode2 poly P (nxt poly x) := by
          rw [hnxt, oldT2_next _ _ _ hvcx, if_neg (fun hc => hc hfx), if_neg hx1]
        rw [hnxt2]
        have h := clip2_exit_pair poly P hinv hB hA x hLx hvcx hfx
        refine ⟨h.1, ?_⟩
        rw [h.2, if_neg hx1]
    · have hnxt2 : nxt (clipPlane2 poly P) x = nxt poly x := by
        rw [hnxt, oldT2_next _ _ _ hvcx, if_pos hfx]
      rw [hnxt2]
      have hLfx := hclf x hLx
      have hflt := hfin _ hLfx
      refine ⟨(liveV_clip2_lt poly P hB hA _ hflt).mpr hfx, ?_⟩
      rw [prv, vAt_clip2_lt poly P hB hA _ hflt, oldT2_prev _ _ _ hfx,
        hgf x hLx, if_pos hvcx]
  · have hge : poly.length ≤ x := le_of_not_lt hxn
    have hlt : x < poly.length + (newKeys2 poly P).length :=
      (liveV_clip2_ge poly P hB hA x hge).mp hx
    rcases clip2_new_cases poly P x hge hlt with ⟨a, haD, rfl⟩ | ⟨c, hcA, rfl⟩
    · have hmem := (mem_descList2_vc poly P a).mp haD
      have hLa : liveV poly a = true :=
        vcomp2_live poly P a (by rw [hmem.1]; decide)
      have hnxt2 : nxt (clipPlane2 poly P) (outIdx2 poly P a) =
          exitNode2 poly P (nxt poly a) := by
        rw [nxt, vAt_clip2_outIdx poly P hB hA _ haD, mkNew2_next_true]
      rw [hnxt2]
      have h := clip2_exit_pair poly P hinv hB hA a hLa
        (by rw [hmem.1]; decide) hmem.2.2
      refine ⟨h.1, ?_⟩
      rw [h.2, if_pos hmem.1]
    · have hmem := (mem_ascList2_vc poly P c).mp hcA
      have hLc : liveV poly c = true :=
        vcomp2_live poly P c (by rw [hmem.1]; decide)
      have hnxt2 : nxt (clipPlane2 poly P) (inIdx2 poly P c) = c := by
        rw [nxt, vAt_clip2_inIdx poly P hB hA _ hcA, mkNew2_next_false]
      rw [hnxt2]
      refine ⟨(liveV_clip2_lt poly P hB hA _ (hfin c hLc)).mpr
        (by rw [hmem.1]; decide), ?_⟩
      rw [prv, vAt_clip2_lt poly P hB hA _ (hfin c hLc),
        oldT2_prev _ _ _ (by rw [hmem.1]; decide),
        if_neg (fun hc2 => hc2 hmem.2.2), if_pos hmem.1]

/-- After a general 2D clip pass, following prev from any live vertex
lands on a live vertex whose next points back. -/
theorem clip2_pred_pair (poly : Polygon) (P : Plane2)
    (hinv : ∀ i, liveV poly i = true → liveV poly (nxt poly i) = true ∧
      liveV poly (prv poly i) = true ∧ prv poly (nxt poly i) = i ∧
      nxt poly (prv poly i) = i)
    (hB : (List.range poly.length).any
      (fun i => liveV poly i && decide (dOf poly P i < 0)) = true)
    (hA : (List.range poly.length).any
      (fun i => liveV poly i && decide (0 < dOf poly P i)) = true) :
    ∀ x, liveV (clipPlane2 poly P) x = true →
      liveV (clipPlane2 poly P) (prv (clipPlane2 poly P) x) = true ∧
        nxt (clipPlane2 poly P) (prv (clipPlane2 poly P) x) = x := by
  have hfin : ∀ i, liveV poly i = true → i < poly.length :=
    fun i hi => ((liveV_eq_true_iff poly i).mp hi).1
  have hclg : ∀ i, liveV poly i = true → liveV poly (prv poly i) = true :=
    fun i hi => (hinv i hi).2.1
  have hfg : ∀ i, liveV poly i = true → nxt poly (prv poly i) = i :=
    fun i hi => (hinv i hi).2.2.2
  intro x hx
  by_cases hxn : x < poly.length
  · have hvcx := (liveV_clip2_lt poly P hB hA x hxn).mp hx
    have hLx := vcomp2_live poly P x hvcx
    have hprv : prv (clipPlane2 poly P) x = (oldT2 poly P x).prev := by
      rw [prv, vAt_clip2_lt poly P hB hA x hxn]
    by_cases hgx : vcomp2 poly P (prv poly x) = -1
    · by_cases hx1 : vcomp2 poly P x = 1
      · have hprv2 : prv (clipPlane2 poly P) x = inIdx2 poly P x := by
          rw [hprv, oldT2_prev _ _ _ hvcx, if_neg (fun hc => hc hgx), if_pos hx1]
        have hxA : x ∈ ascList2 poly P :=
          (mem_ascList2_vc poly P x).mpr ⟨hx1, hclg x hLx, hgx⟩
        rw [hprv2]
        refine ⟨?_, ?_⟩
        · rw [liveV_clip2_ge poly P hB hA _ (inIdx2_bounds poly P _ hxA).1]
          exact (inIdx2_bounds poly P _ hxA).2
        · rw [nxt, vAt_clip2_inIdx poly P hB hA _ hxA, mkNew2_next_false]
      · have hprv2 : prv (clipPlane2 poly P) x = entryNode2 poly P (prv poly x) := by
          rw [hprv, oldT2_prev _ _ _ hvcx, if_neg (fun hc => hc hgx), if_neg hx1]
        rw [hprv2]
        have h := clip2_entry_pair poly P hinv hB hA x hLx hvcx hgx
        refine ⟨h.1, ?_⟩
        rw [h.2, if_neg hx1]
    · have hprv2 : prv (clipPlane2 poly P) x = prv poly x := by
        rw [hprv, oldT2_prev _ _ _ hvcx, if_pos hgx]
      rw [hprv2]
      have hLgx := hclg x hLx
      have hglt := hfin _ hLgx
      refine ⟨(liveV_clip2_lt poly P hB hA _ hglt).mpr hgx, ?_⟩
      rw [nxt, vAt_clip2_lt poly P hB hA _ hglt, oldT2_next _ _ _ hgx,
        hfg x hLx, if_pos hvcx]
  · have hge : poly.length ≤ x := le_of_not_lt hxn
    have hlt : x < poly.length + (newKeys2 poly P).length :=
      (liveV_clip2_ge poly P hB hA x hge).mp hx
    rcases clip2_new_cases poly P x hge hlt with ⟨a, haD, rfl⟩ | ⟨c, hcA, rfl⟩
    · have hmem := (mem_descList2_vc poly P a).mp haD
      have hLa : liveV poly a = true :=
        vcomp2_live poly P a (by rw [hmem.1]; decide)
      have hprv2 : prv (clipPlane2 poly P) (outIdx2 poly P a) = a := by
        rw [prv, vAt_clip2_outIdx poly P hB hA _ haD, mkNew2_prev_true]
      rw [hprv2]
      refine ⟨(liveV_clip2_lt poly P hB hA _ (hfin a hLa)).mpr
        (by rw [hmem.1]; decide), ?_⟩
      rw [nxt, vAt_clip2_lt poly P hB hA _ (hfin a hLa),
        oldT2_next _ _ _ (by rw [hmem.1]; decide),
        if_neg (fun hc2 => hc2 hmem.2.2), if_pos hmem.1]
    · have hmem := (mem_ascList2_vc poly P c).mp hcA
      have hLc : liveV poly c = true :=
        vcomp2_live poly P c (by rw [hmem.1]; decide)
      have hprv2 : prv (clipPlane2 poly P) (inIdx2 poly P c) =
          entryNode2 poly P (prv poly c) := by
        rw [prv, vAt_clip2_inIdx poly P hB hA _ hcA, mkNew2_prev_false]
      rw [hprv2]
      have h := clip2_entry_pair poly P hinv hB hA c hLc
        (by rw [hmem.1]; decide) hmem.2.2
      refine ⟨h.1, ?_⟩
      rw [h.2, if_pos hmem.1]

/-- One 2D clip pass preserves the doubly-linked boundary invariant:
every live vertex of the result has live neighbors with prev and next
mutually inverse. -/
theorem clipPlane2_preserves_manifold (poly : Polygon) (P : Plane2)
    (hinv : ∀ i, liveV poly i = true → liveV poly (nxt poly i) = true ∧
      liveV poly (prv poly i) = true ∧ prv poly (nxt poly i) = i ∧
      nxt poly (prv poly i) = i) :
    ∀ i, liveV (clipPlane2 poly P) i = true →
      liveV (clipPlane2 poly P) (nxt (clipPlane2 poly P) i) = true ∧
        liveV (clipPlane2 poly P) (prv (clipPlane2 poly P) i) = true ∧
        prv (clipPlane2 poly P) (nxt (clipPlane2 poly P) i) = i ∧
        nxt (clipPlane2 poly P) (prv (clipPlane2 poly P) i) = i := by
  by_cases hB : (List.range poly.length).any
      (fun i => liveV poly i && decide (dOf poly P i < 0)) = true
  · by_cases hA : (List.range poly.length).any
        (fun i => liveV poly i && decide (0 < dOf poly P i)) = true
    · intro i hi
      obtain ⟨h1, h2⟩ := clip2_succ_pair poly P hinv hB hA i hi
      obtain ⟨h3, h4⟩ := clip2_pred_pair poly P hinv hB hA i hi
      exact ⟨h1, h3, h2, h4⟩
    · have hA' : (List.range poly.length).any
          (fun i => liveV poly i && decide (0 < dOf poly P i)) = false := by
        cases hh : (List.range poly.length).any
            (fun i => liveV poly i && decide (0 < dOf poly P i))
        · rfl
        · exact absurd hh hA
      intro i hi
      rw [clipPlane2_tomb poly P hB hA', liveV_tomb poly i] at hi
      cases hi
  · have hB' : ∀ i, liveV poly i = true → ¬ dOf poly P i < 0 := by
      intro i hi hlt
      rw [List.any_eq_true] at hB
      exact hB ⟨i, List.mem_range.mpr ((liveV_eq_true_iff poly i).mp hi).1,
        by simp [hi, hlt]⟩
    rw [clipPlane2_of_not_below poly P hB']
    exact hinv

/-- clipPolygon preserves the doubly-linked boundary invariant of
spec 3 for any plane list: the 2D half of the manifold-preservation
property. -/
theorem clipPolygon_preserves_manifold (poly : Polygon) (planes : List Plane2)
    (hinv : ∀ i, liveV poly i = true → liveV poly (nxt poly i) = true ∧
      liveV poly (prv poly i) = true ∧ prv poly (nxt poly i) = i ∧
      nxt poly (prv poly i) = i) :
    ∀ i, liveV (clipPolygon poly planes) i = true →
      liveV (clipPolygon poly planes) (nxt (clipPolygon poly planes) i) = true ∧
        liveV (clipPolygon poly planes) (prv (clipPolygon poly planes) i) = true ∧
        prv (clipPolygon poly planes) (nxt (clipPolygon poly planes) i) = i ∧
        nxt (clipPolygon poly planes) (prv (clipPolygon poly planes) i) = i := by
  induction planes generalizing poly with
  | nil => exact hinv
  | cons P rest ih =>
    show ∀ i, liveV (clipPolygon (clipPlane2 poly P) rest) i = true → _
    exact ih (clipPlane2 poly P) (clipPlane2_preserves_manifold poly P hinv)
